import Mathlib

/-!
Shallow embedding of the labki-schemas versioning engine
(scripts/lib/version-cascade.js, scripts/lib/change-detector.js,
scripts/lib/constants.js, scripts/lib/path-utils.js,
scripts/lib/artifact-generator.js, scripts/lib/entity-index.js)
together with theorems settling the frozen claims about it.

JavaScript `Map`s are modelled as association lists with JS `Map.set`
semantics (update in place, append new keys at the end).  JSON entity
objects are association lists of string keys to values that are either
strings or arrays of strings (the only shapes the engine inspects).
File-system and git access (detectChanges, loadOverrides, fs reads) are
modelled by passing their results as explicit parameters.
-/

namespace Labki

/-- Bump classes: exactly the strings "major", "minor", "patch". -/
inductive Bump where
  | major
  | minor
  | patch
deriving DecidableEq, Repr

/-- constants.js: `BUMP_PRIORITY = { major: 3, minor: 2, patch: 1 }`. -/
def BUMP_PRIORITY : Bump → Nat
  | Bump.major => 3
  | Bump.minor => 2
  | Bump.patch => 1

/-- Priority of an optional bump; a missing entry has priority 0
(mirrors `BUMP_PRIORITY[x] || 0` on an absent value). -/
def prioOpt : Option Bump → Nat
  | none => 0
  | some b => BUMP_PRIORITY b

/-- Rendering of a bump class to its wire string. -/
def bumpToStr : Bump → String
  | Bump.major => "major"
  | Bump.minor => "minor"
  | Bump.patch => "patch"

/-- JS `Map.get`: first (unique) binding of the key. -/
def mapGet {α : Type} : List (String × α) → String → Option α
  | [], _ => none
  | (k2, v) :: rest, k => if k2 = k then some v else mapGet rest k

/-- JS `Map.set`: update the existing binding in place, else append. -/
def mapSet {α : Type} : List (String × α) → String → α → List (String × α)
  | [], k, v => [(k, v)]
  | (k2, v2) :: rest, k, v =>
      if k2 = k then (k, v) :: rest else (k2, v2) :: mapSet rest k v

/-- JSON values the engine inspects: strings and arrays of strings. -/
inductive JVal where
  | s (v : String)
  | l (vs : List String)
deriving DecidableEq, Repr

/-- A JSON entity object: association list from field names to values. -/
abbrev Obj := List (String × JVal)

/-- Field access `o.k` (undefined when the field is absent). -/
def getField (o : Obj) (k : String) : Option JVal := mapGet o k

/-- `o.k || []`: list-valued field access defaulting to the empty list. -/
def getListField (o : Obj) (k : String) : List String :=
  match getField o k with
  | some (JVal.l vs) => vs
  | _ => []

/-- String-valued field access. -/
def getStrField (o : Obj) (k : String) : Option String :=
  match getField o k with
  | some (JVal.s v) => some v
  | _ => none

/-- JS truthiness of a field value: `undefined` and `""` are falsy,
arrays (even empty ones) and non-empty strings are truthy. -/
def jsTruthy : Option JVal → Bool
  | none => false
  | some (JVal.s v) => v ≠ ""
  | some (JVal.l _) => true

/-- JS template-literal rendering: `undefined` prints as "undefined",
arrays join with commas. -/
def jsShow : Option JVal → String
  | none => "undefined"
  | some (JVal.s v) => v
  | some (JVal.l vs) => String.intercalate "," vs

/-- Elements obtained by iterating a JS value into `new Set(...)`:
arrays yield their elements, strings yield their characters. -/
def jsSetElems : JVal → List String
  | JVal.l vs => vs
  | JVal.s v => v.data.map (fun c => String.singleton c)

/-- constants.js: `ENTITY_TYPES`. -/
def ENTITY_TYPES : List String :=
  ["categories", "properties", "subobjects", "templates", "modules", "bundles"]

/-- constants.js: `MODULE_ENTITY_TYPES` (module contents). -/
def MODULE_ENTITY_TYPES : List String :=
  ["categories", "properties", "subobjects", "templates"]

/-- The entity-type directories recognised by the index builder.  The
constants file exporting `ENTITY_TYPES_SET` is not under src/; the set is
read off the eight maps the builder initialises (entity-index.js). -/
def ENTITY_TYPES_SET : List String :=
  ["categories", "properties", "subobjects", "templates", "modules",
   "bundles", "dashboards", "resources"]

/-- Result of path-utils.js `parseEntityPath`. -/
structure ParsedPath where
  entityType : String
  entityId : String
deriving DecidableEq, Repr

/-- Character-level splitting (structurally recursive model of JS
`String.prototype.split` with a one-character separator). -/
def splitChars (sep : Char) : List Char → List (List Char)
  | [] => [[]]
  | c :: rest =>
      let r := splitChars sep rest
      if c = sep then [] :: r
      else
        match r with
        | [] => [[c]]
        | h :: t => (c :: h) :: t

/-- JS `s.split(sep)` for a one-character separator. -/
def jsSplit (sep : Char) (s : String) : List String :=
  (splitChars sep s.data).map (fun l => String.mk l)

/-- Remove the first occurrence of `pat` from a character list. -/
def removeFirstSub (pat : List Char) : List Char → List Char
  | [] => []
  | c :: rest =>
      if pat.isPrefixOf (c :: rest) then (c :: rest).drop pat.length
      else c :: removeFirstSub pat rest

/-- JS `String.prototype.replace(pat, "")`: remove the FIRST occurrence
of `pat` only. -/
def replaceFirst (s pat : String) : String :=
  String.mk (removeFirstSub pat.data s.data)

/-- path-utils.js `parseEntityPath`: first path segment is the entity
type, the entity id is the LAST segment with ".json" stripped. -/
def parseEntityPath (filePath : String) : ParsedPath :=
  let parts := jsSplit '/' filePath
  { entityType := parts.headD ""
    entityId := replaceFirst (parts.getLastD "") ".json" }

/-- One record of change-detector.js `detectBreakingChange`. -/
structure ChangeResult where
  isBreaking : Bool
  changeType : Bump
  reason : Option String
deriving DecidableEq, Repr

/-- Key appears in deep-object-diff `added`: present only in the PR
object, or an array field that grew in length. -/
def keyAdded (base pr : Obj) (k : String) : Bool :=
  match getField base k, getField pr k with
  | none, some _ => true
  | some (JVal.l vs), some (JVal.l vs2) => vs.length < vs2.length
  | _, _ => false

/-- Key appears in deep-object-diff `deleted`: present only in the base
object, or an array field that shrank in length. -/
def keyDeleted (base pr : Obj) (k : String) : Bool :=
  match getField base k, getField pr k with
  | some _, none => true
  | some (JVal.l vs), some (JVal.l vs2) => vs2.length < vs.length
  | _, _ => false

/-- Key appears in deep-object-diff `updated`: present in both with a
changed primitive value, a changed value at a common array index, or a
change of shape. -/
def keyUpdated (base pr : Obj) (k : String) : Bool :=
  match getField base k, getField pr k with
  | some (JVal.s a), some (JVal.s b) => a ≠ b
  | some (JVal.l vs), some (JVal.l vs2) =>
      (List.zip vs vs2).any (fun p => p.1 ≠ p.2)
  | some (JVal.s _), some (JVal.l _) => true
  | some (JVal.l _), some (JVal.s _) => true
  | _, _ => false

/-- `Object.keys(o)`. -/
def objKeys (o : Obj) : List String := o.map Prod.fst

/-- `Object.keys(added)` of `detailedDiff(base, pr)`. -/
def addedKeys (base pr : Obj) : List String :=
  (objKeys pr).filter (fun k => keyAdded base pr k)

/-- `Object.keys(deleted)` of `detailedDiff(base, pr)`. -/
def deletedKeys (base pr : Obj) : List String :=
  (objKeys base).filter (fun k => keyDeleted base pr k)

/-- `Object.keys(updated)` of `detailedDiff(base, pr)`. -/
def updatedKeys (base pr : Obj) : List String :=
  (objKeys base).filter (fun k => keyUpdated base pr k)

/-- change-detector.js `checkPropertyBreakingChanges`. -/
def checkPropertyBreakingChanges (baseEntity prEntity : Obj) :
    Option ChangeResult :=
  if keyUpdated baseEntity prEntity "datatype" then
    some { isBreaking := true, changeType := Bump.major,
           reason := some ("datatype changed: " ++
             jsShow (getField baseEntity "datatype") ++ " -> " ++
             jsShow (getField prEntity "datatype")) }
  else if keyUpdated baseEntity prEntity "cardinality" ∧
      getField baseEntity "cardinality" = some (JVal.s "multiple") ∧
      getField prEntity "cardinality" = some (JVal.s "single") then
    some { isBreaking := true, changeType := Bump.major,
           reason := some "cardinality restricted: multiple -> single" }
  else if jsTruthy (getField baseEntity "allowed_values") ∧
      jsTruthy (getField prEntity "allowed_values") then
    let oldSet := (getField baseEntity "allowed_values").elim [] jsSetElems
    let newSet := (getField prEntity "allowed_values").elim [] jsSetElems
    match oldSet.find? (fun v => ¬ v ∈ newSet) with
    | some v =>
        some { isBreaking := true, changeType := Bump.major,
               reason := some ("allowed_values removed: " ++ v) }
    | none =>
        match newSet.find? (fun v => ¬ v ∈ oldSet) with
        | some _ =>
            some { isBreaking := false, changeType := Bump.minor,
                   reason := none }
        | none => none
  else
    none

/-- change-detector.js `checkCategoryBreakingChanges`. -/
def checkCategoryBreakingChanges (baseEntity prEntity : Obj) :
    Option ChangeResult :=
  let reqStep :=
    if jsTruthy (getField baseEntity "required_properties") ∧
        jsTruthy (getField prEntity "required_properties") then
      let oldSet := (getField baseEntity "required_properties").elim [] jsSetElems
      let newSet := (getField prEntity "required_properties").elim [] jsSetElems
      match newSet.find? (fun p => ¬ p ∈ oldSet) with
      | some p =>
          some { isBreaking := true, changeType := Bump.major,
                 reason := some ("required_properties added: " ++ p) }
      | none => none
    else if ¬ jsTruthy (getField baseEntity "required_properties") ∧
        ((getField prEntity "required_properties").elim [] jsSetElems).length > 0 then
      some { isBreaking := true, changeType := Bump.major,
             reason := some ("required_properties added: " ++
               String.intercalate ", "
                 ((getField prEntity "required_properties").elim [] jsSetElems)) }
    else none
  match reqStep with
  | some r => some r
  | none =>
    if jsTruthy (getField baseEntity "optional_properties") ∧
        jsTruthy (getField prEntity "optional_properties") then
      let oldSet := (getField baseEntity "optional_properties").elim [] jsSetElems
      let newSet := (getField prEntity "optional_properties").elim [] jsSetElems
      match oldSet.find? (fun p => ¬ p ∈ newSet) with
      | some p =>
          some { isBreaking := true, changeType := Bump.major,
                 reason := some ("optional_properties removed: " ++ p) }
      | none => none
    else none

/-- change-detector.js `checkEntityBreakingChanges`. -/
def checkEntityBreakingChanges (entityType : String)
    (baseEntity prEntity : Obj) : Option ChangeResult :=
  if entityType = "properties" then
    checkPropertyBreakingChanges baseEntity prEntity
  else if entityType = "categories" then
    checkCategoryBreakingChanges baseEntity prEntity
  else if entityType = "modules" ∨ entityType = "bundles" then
    let dk := (deletedKeys baseEntity prEntity).filter (fun k => k ≠ "_filePath")
    let structuralFields := ["id", "label", "description", "categories", "properties"]
    match dk.find? (fun k => k ∈ structuralFields) with
    | some k =>
        some { isBreaking := true, changeType := Bump.major,
               reason := some ("field deleted: " ++ k) }
    | none => none
  else
    none

/-- change-detector.js `detectBreakingChange`: classify a (base, PR)
entity pair; `none` stands for a null/absent entity. -/
def detectBreakingChange (entityType : String)
    (baseEntity prEntity : Option Obj) : ChangeResult :=
  match baseEntity, prEntity with
  | some b, none =>
      { isBreaking := true, changeType := Bump.major,
        reason := some (entityType ++ " deleted: " ++ jsShow (getField b "id")) }
  | none, some _ =>
      { isBreaking := false, changeType := Bump.minor, reason := none }
  | none, none =>
      { isBreaking := false, changeType := Bump.patch, reason := none }
  | some b, some p =>
      if getField b "id" ≠ getField p "id" then
        { isBreaking := true, changeType := Bump.major,
          reason := some ("id changed: " ++ jsShow (getField b "id") ++
            " -> " ++ jsShow (getField p "id")) }
      else
        match checkEntityBreakingChanges entityType b p with
        | some r => r
        | none =>
          let hasAdditions :=
            ((addedKeys b p).filter (fun k => k ≠ "_filePath")).length > 0
          let hasUpdates :=
            ((updatedKeys b p).filter (fun k => k ≠ "_filePath")).length > 0
          if hasAdditions then
            { isBreaking := false, changeType := Bump.minor, reason := none }
          else if hasUpdates then
            { isBreaking := false, changeType := Bump.patch, reason := none }
          else
            { isBreaking := false, changeType := Bump.patch, reason := none }

/-- One change record as produced by `detectChanges`. -/
structure Change where
  file : String
  entityType : String
  changeType : Bump
  reason : Option String
deriving DecidableEq, Repr

/-- In-memory entity index (entity-index.js): one id-keyed map per
entity-type directory. -/
structure EntityIndex where
  categories : List (String × Obj) := []
  properties : List (String × Obj) := []
  subobjects : List (String × Obj) := []
  templates : List (String × Obj) := []
  modules : List (String × Obj) := []
  bundles : List (String × Obj) := []
  dashboards : List (String × Obj) := []
  resources : List (String × Obj) := []
deriving DecidableEq, Repr

/-- Dynamic read `index[t]` for an entity-type name. -/
def idxTypeMap (idx : EntityIndex) (t : String) : List (String × Obj) :=
  if t = "categories" then idx.categories
  else if t = "properties" then idx.properties
  else if t = "subobjects" then idx.subobjects
  else if t = "templates" then idx.templates
  else if t = "modules" then idx.modules
  else if t = "bundles" then idx.bundles
  else if t = "dashboards" then idx.dashboards
  else if t = "resources" then idx.resources
  else []

/-- Dynamic write `index[t].set(id, entity)`. -/
def idxSetType (idx : EntityIndex) (t id : String) (e : Obj) : EntityIndex :=
  if t = "categories" then { idx with categories := mapSet idx.categories id e }
  else if t = "properties" then { idx with properties := mapSet idx.properties id e }
  else if t = "subobjects" then { idx with subobjects := mapSet idx.subobjects id e }
  else if t = "templates" then { idx with templates := mapSet idx.templates id e }
  else if t = "modules" then { idx with modules := mapSet idx.modules id e }
  else if t = "bundles" then { idx with bundles := mapSet idx.bundles id e }
  else if t = "dashboards" then { idx with dashboards := mapSet idx.dashboards id e }
  else if t = "resources" then { idx with resources := mapSet idx.resources id e }
  else idx

/-- An input file for the index builder: its glob-relative path and its
parse result (`none` when `JSON.parse` failed). -/
structure EntityFile where
  path : String
  data : Option Obj
deriving DecidableEq, Repr

/-- The JS `Map` key under which a parsed entity is stored (`data.id`). -/
def idKeyOf (jv : JVal) : String := jsShow (some jv)

/-- Processing of one discovered file by the index builder: skip files
outside known type directories, unparsable files, and files whose `id`
field is falsy; otherwise store the data plus a `_filePath` field under
the entity's own id. -/
def indexInsert (idx : EntityIndex) (f : EntityFile) : EntityIndex :=
  let firstSegment := (jsSplit '/' f.path).headD ""
  if firstSegment ∈ ENTITY_TYPES_SET then
    match f.data with
    | none => idx
    | some data =>
        if jsTruthy (getField data "id") then
          match getField data "id" with
          | some jv =>
              idxSetType idx firstSegment (idKeyOf jv)
                (mapSet data "_filePath" (JVal.s f.path))
          | none => idx
        else idx
  else idx

/-- entity-index.js `buildEntityIndex`, with the discovered file list
(and each file's parse result) passed in place of the file system. -/
def buildEntityIndex (files : List EntityFile) : EntityIndex :=
  files.foldl indexInsert {}

/-- version-cascade.js `buildReverseModuleIndex`: map "type:id" of each
module-content entity to the containing module's id. -/
def buildReverseModuleIndex (idx : EntityIndex) : List (String × String) :=
  idx.modules.foldl
    (fun acc m =>
      MODULE_ENTITY_TYPES.foldl
        (fun acc2 entityType =>
          (getListField m.2 entityType).foldl
            (fun acc3 entityId =>
              mapSet acc3 (entityType ++ ":" ++ entityId) m.1)
            acc2)
        acc)
    []

/-- Loop state step of `maxBumpType`: keep the running maximum and its
priority, replacing it only on a strictly greater priority. -/
def maxStep (acc : Bump × Nat) (b : Bump) : Bump × Nat :=
  if BUMP_PRIORITY b > acc.2 then (b, BUMP_PRIORITY b) else acc

/-- version-cascade.js `maxBumpType`: highest bump in the list, "patch"
for the empty list. -/
def maxBumpType (bumps : List Bump) : Bump :=
  if bumps.isEmpty then Bump.patch
  else (bumps.foldl maxStep (Bump.patch, BUMP_PRIORITY Bump.patch)).1

/-- The reverse-index key a change's file path is looked up under. -/
def changeKey (change : Change) : String :=
  (parseEntityPath change.file).entityType ++ ":" ++ (parseEntityPath change.file).entityId

/-- Loop body of `calculateModuleBumps` for one change: skip orphan
entities, else raise the owning module's bump. -/
def moduleBumpStep (reverseIndex : List (String × String))
    (moduleBumps : List (String × Bump)) (change : Change) : List (String × Bump) :=
  match mapGet reverseIndex (changeKey change) with
  | none => moduleBumps
  | some moduleId =>
      match mapGet moduleBumps moduleId with
      | some existingBump =>
          mapSet moduleBumps moduleId
            (maxBumpType [existingBump, change.changeType])
      | none => mapSet moduleBumps moduleId change.changeType

/-- version-cascade.js `calculateModuleBumps`: aggregate entity changes
per owning module, skipping orphan entities. -/
def calculateModuleBumps (idx : EntityIndex) (changes : List Change) :
    List (String × Bump) :=
  changes.foldl (moduleBumpStep (buildReverseModuleIndex idx)) []

/-- The module dependency graph: nodes with their direct-dependency
lists (the shape stored by the `dependency-graph` package). -/
abbrev Graph := List (String × List String)

/-- Node list of a graph. -/
def nodesOf (g : Graph) : List String := g.map Prod.fst

/-- Direct dependencies of a node (`outgoingEdges`); absent nodes have
none. -/
def depsOf (g : Graph) (n : String) : List String :=
  match mapGet g n with
  | some ds => ds
  | none => []

/-- Invariants the `dependency-graph` package maintains: node names are
unique and `addDependency` only links existing nodes. -/
def WFGraph (g : Graph) : Prop :=
  (nodesOf g).Nodup ∧ ∀ e ∈ g, ∀ d ∈ e.2, d ∈ nodesOf g

/-- version-cascade.js `buildModuleDependencyGraph`: one node per
module; a dependency edge only when the dependency module exists. -/
def buildModuleDependencyGraph (idx : EntityIndex) : Graph :=
  idx.modules.map
    (fun m =>
      (m.1, (getListField m.2 "dependencies").filter
        (fun depId => (mapGet idx.modules depId).isSome)))

/-- Kahn-style topological sort used to model `DepGraph.overallOrder`:
repeatedly emit the nodes all of whose dependencies were already
emitted; `none` models the "Dependency Cycle Found" exception. -/
def kahnAux (g : Graph) : Nat → List String → List String → Option (List String)
  | 0, emitted, remaining => if remaining = [] then some emitted else none
  | fuel + 1, emitted, remaining =>
      if remaining = [] then some emitted
      else
        if remaining.filter (fun n => ∀ d ∈ depsOf g n, d ∈ emitted) = [] then none
        else
          kahnAux g fuel
            (emitted ++ remaining.filter (fun n => ∀ d ∈ depsOf g n, d ∈ emitted))
            (remaining.filter
              (fun n => ¬ n ∈ remaining.filter (fun n2 => ∀ d ∈ depsOf g n2, d ∈ emitted)))

/-- Model of `DepGraph.overallOrder`: a dependencies-first topological
order of all nodes, or `none` when the graph has a cycle. -/
def topoOrder (g : Graph) : Option (List String) :=
  kahnAux g g.length [] (nodesOf g)

/-- Saturation loop computing the transitive dependency closure. -/
def dependenciesOfAux (g : Graph) : Nat → List String → List String
  | 0, acc => acc
  | fuel + 1, acc =>
      let next := ((acc.foldr (fun x r => depsOf g x ++ r) []).filter
        (fun d => ¬ d ∈ acc)).dedup
      if next = [] then acc else dependenciesOfAux g fuel (acc ++ next)

/-- Model of `DepGraph.dependenciesOf`: every node transitively
reachable through dependency edges. -/
def dependenciesOf (g : Graph) (n : String) : List String :=
  dependenciesOfAux g g.length (depsOf g n).dedup

/-- Body of the cascade loop of `propagateDependencyCascade` for one
module of the topological order: collect the bumps of all (transitive)
dependencies that have one and raise this module's bump to their max. -/
def cascadeStep (g : Graph) (cascadedBumps : List (String × Bump))
    (moduleId : String) : List (String × Bump) :=
  if (dependenciesOf g moduleId).filterMap
      (fun depId => mapGet cascadedBumps depId) = [] then
    cascadedBumps
  else
    match mapGet cascadedBumps moduleId with
    | some currentBump =>
        mapSet cascadedBumps moduleId
          (maxBumpType [currentBump,
            maxBumpType ((dependenciesOf g moduleId).filterMap
              (fun depId => mapGet cascadedBumps depId))])
    | none =>
        mapSet cascadedBumps moduleId
          (maxBumpType ((dependenciesOf g moduleId).filterMap
            (fun depId => mapGet cascadedBumps depId)))

/-- version-cascade.js `propagateDependencyCascade`: raise each module's
bump to cover its (transitive) dependencies, processing modules in
topological order; on a cycle the un-cascaded map is returned unchanged
(the `overallOrder` call throws before the loop runs). -/
def propagateDependencyCascade (g : Graph) (moduleBumps : List (String × Bump)) :
    List (String × Bump) :=
  match topoOrder g with
  | none => moduleBumps
  | some order => order.foldl (cascadeStep g) moduleBumps

/-- version-cascade.js `calculateBundleBumps`: a bundle gets the max
bump of its modules and is omitted when none of them has a bump. -/
def calculateBundleBumps (idx : EntityIndex) (moduleBumps : List (String × Bump)) :
    List (String × Bump) :=
  idx.bundles.foldl
    (fun bundleBumps b =>
      let bumps := (getListField b.2 "modules").filterMap
        (fun moduleId => mapGet moduleBumps moduleId)
      if bumps.length > 0 then mapSet bundleBumps b.1 (maxBumpType bumps)
      else bundleBumps)
    []

/-- version-cascade.js `calculateOntologyBump`: the max change class
over ALL detected changes; "patch" for an empty list. -/
def calculateOntologyBump (changes : List Change) : Bump :=
  if changes.isEmpty then Bump.patch
  else maxBumpType (changes.map (fun c => c.changeType))

/-- The override-downgrade warning string of `applyOverrides`. -/
def mkDowngradeWarning (id : String) (calculated overrideBump : Bump) : String :=
  "Override downgrades " ++ id ++ " from " ++ bumpToStr calculated ++
    " to " ++ bumpToStr overrideBump

/-- Result of `applyOverrides`. -/
structure OverrideResult where
  bumps : List (String × Bump)
  warnings : List String
deriving DecidableEq, Repr

/-- Loop body of `applyOverrides` for one override entry: warn when the
override strictly lowers the calculated bump (read from the ORIGINAL
calculated map), then set the entry unconditionally. -/
def applyOverridesStep (calculatedBumps : List (String × Bump))
    (acc : OverrideResult) (p : String × Bump) : OverrideResult :=
  let warnings2 :=
    match mapGet calculatedBumps p.1 with
    | some calculated =>
        if BUMP_PRIORITY p.2 < BUMP_PRIORITY calculated then
          acc.warnings ++ [mkDowngradeWarning p.1 calculated p.2]
        else acc.warnings
    | none => acc.warnings
  { bumps := mapSet acc.bumps p.1 p.2, warnings := warnings2 }

/-- The warning an override entry contributes, if any. -/
def warnFn (calculatedBumps : List (String × Bump)) (p : String × Bump) :
    Option String :=
  match mapGet calculatedBumps p.1 with
  | some calculated =>
      if BUMP_PRIORITY p.2 < BUMP_PRIORITY calculated then
        some (mkDowngradeWarning p.1 calculated p.2)
      else none
  | none => none

/-- version-cascade.js `applyOverrides`: set every override entry
unconditionally, warning when it strictly lowers a calculated bump. -/
def applyOverrides (calculatedBumps : List (String × Bump))
    (overrides : List (String × Bump)) : OverrideResult :=
  overrides.foldl (applyOverridesStep calculatedBumps)
    { bumps := calculatedBumps, warnings := [] }

/-- Model of `semver.inc` for plain MAJOR.MINOR.PATCH versions (the
semver package is an external collaborator). -/
def semverInc (v : String) (bumpType : Bump) : Option String :=
  match (jsSplit '.' v).map (fun s => s.toNat?) with
  | [some a, some b, some c] =>
      match bumpType with
      | Bump.major => some (toString (a + 1) ++ ".0.0")
      | Bump.minor => some (toString a ++ "." ++ toString (b + 1) ++ ".0")
      | Bump.patch => some (toString a ++ "." ++ toString b ++ "." ++ toString (c + 1))
  | _ => none

/-- version-cascade.js `calculateNewVersion`: null for a falsy current
version or a version semver cannot parse. -/
def calculateNewVersion (currentVersion : String) (bumpType : Bump) :
    Option String :=
  if currentVersion = "" then none
  else semverInc currentVersion bumpType

/-- One `{ current, new, bump }` record of the cascade output. -/
structure VersionInfo where
  current : String
  newVersion : Option String
  bump : Bump
deriving DecidableEq, Repr

/-- The cascade output record.  The four `Option` fields model JS object
keys that the early no-changes return leaves out entirely. -/
structure CascadeResult where
  changes : List Change
  moduleBumps : List (String × Bump)
  bundleBumps : List (String × Bump)
  ontologyBump : Bump
  orphanChanges : List Change
  overrides : Option (List (String × Bump))
  overrideWarnings : Option (List String)
  moduleVersions : Option (List (String × VersionInfo))
  bundleVersions : Option (List (String × VersionInfo))
deriving DecidableEq, Repr

/-- version-cascade.js `calculateVersionCascade`.  The change list
(output of the git-backed `detectChanges`) and the override table
(content of VERSION_OVERRIDES.json read by `loadOverrides`) are passed
as parameters in place of their I/O collaborators. -/
def calculateVersionCascade (idx : EntityIndex) (changes : List Change)
    (applyOverridesOpt : Bool) (overrides : List (String × Bump)) :
    CascadeResult :=
  if changes = [] then
    { changes := [], moduleBumps := [], bundleBumps := [],
      ontologyBump := Bump.patch, orphanChanges := [],
      overrides := none, overrideWarnings := none,
      moduleVersions := none, bundleVersions := none }
  else
    let reverseIndex := buildReverseModuleIndex idx
    let moduleGraph := buildModuleDependencyGraph idx
    let initialModuleBumps := calculateModuleBumps idx changes
    let moduleBumps := propagateDependencyCascade moduleGraph initialModuleBumps
    let bundleBumps := calculateBundleBumps idx moduleBumps
    let ontologyBump := calculateOntologyBump changes
    let orphanChanges := changes.filter
      (fun change => (mapGet reverseIndex (changeKey change)).isNone)
    let overridesUsed := if applyOverridesOpt then overrides else []
    let moduleOverrideResult :=
      if applyOverridesOpt then applyOverrides moduleBumps overridesUsed
      else { bumps := moduleBumps, warnings := [] }
    let bundleOverrideResult :=
      if applyOverridesOpt then applyOverrides bundleBumps overridesUsed
      else { bumps := bundleBumps, warnings := [] }
    let finalModuleBumps := moduleOverrideResult.bumps
    let finalBundleBumps := bundleOverrideResult.bumps
    let overrideWarnings := moduleOverrideResult.warnings ++ bundleOverrideResult.warnings
    let moduleVersions := finalModuleBumps.filterMap
      (fun p =>
        match mapGet idx.modules p.1 with
        | some m =>
            match getStrField m "version" with
            | some v =>
                if v ≠ "" then
                  some (p.1, { current := v,
                               newVersion := calculateNewVersion v p.2,
                               bump := p.2 })
                else none
            | none => none
        | none => none)
    let bundleVersions := finalBundleBumps.filterMap
      (fun p =>
        match mapGet idx.bundles p.1 with
        | some b =>
            match getStrField b "version" with
            | some v =>
                if v ≠ "" then
                  some (p.1, { current := v,
                               newVersion := calculateNewVersion v p.2,
                               bump := p.2 })
                else none
            | none => none
        | none => none)
    { changes := changes, moduleBumps := finalModuleBumps,
      bundleBumps := finalBundleBumps, ontologyBump := ontologyBump,
      orphanChanges := orphanChanges, overrides := some overridesUsed,
      overrideWarnings := some overrideWarnings,
      moduleVersions := some moduleVersions,
      bundleVersions := some bundleVersions }

/-- A module version artifact (artifact-generator.js); `generated` is
the timestamp the source takes from `new Date()`. -/
structure ModuleArtifact where
  schemaUrl : String
  id : String
  version : String
  generated : String
  dependencies : List (String × Option String)
  categories : List Obj
  properties : List Obj
  subobjects : List Obj
  templates : List Obj
deriving DecidableEq, Repr

/-- Strip the internal `_filePath` bookkeeping field from an entity. -/
def removeFilePath (e : Obj) : Obj := e.filter (fun p => p.1 ≠ "_filePath")

/-- The entity array of one content type of a module artifact: each
listed id that resolves in the index contributes its full content minus
`_filePath`; unresolved ids are skipped. -/
def artifactEntities (idx : EntityIndex) (m : Obj) (entityType : String) :
    List Obj :=
  (getListField m entityType).filterMap
    (fun entityId =>
      match mapGet (idxTypeMap idx entityType) entityId with
      | some e => some (removeFilePath e)
      | none => none)

/-- artifact-generator.js `generateModuleArtifact`: throws (modelled by
`Except.error`) when the module or one of its declared dependency
modules is missing; `now` stands for `new Date().toISOString()`. -/
def generateModuleArtifact (moduleId version now : String)
    (idx : EntityIndex) : Except String ModuleArtifact :=
  match mapGet idx.modules moduleId with
  | none => Except.error ("Module not found: " ++ moduleId)
  | some moduleEntity =>
      let depIds := getListField moduleEntity "dependencies"
      match depIds.find? (fun depId => (mapGet idx.modules depId).isNone) with
      | some depId => Except.error ("Dependency module not found: " ++ depId)
      | none =>
          Except.ok
            { schemaUrl := "https://labki.org/schemas/module-version.schema.json"
              id := moduleId
              version := version
              generated := now
              dependencies := depIds.map
                (fun depId =>
                  (depId, (mapGet idx.modules depId).bind
                    (fun d => getStrField d "version")))
              categories := artifactEntities idx moduleEntity "categories"
              properties := artifactEntities idx moduleEntity "properties"
              subobjects := artifactEntities idx moduleEntity "subobjects"
              templates := artifactEntities idx moduleEntity "templates" }

/-- Projection used to observe a generated artifact's categories array
without pattern matching in theorem statements. -/
def artifactCategoriesOf (e : Except String ModuleArtifact) :
    Option (List Obj) :=
  match e with
  | Except.ok a => some a.categories
  | Except.error _ => none

/-- Transitive dependency between graph nodes: `DependsOn g a b` holds
when `b` is reachable from `a` through one or more dependency edges. -/
def DependsOn (g : Graph) (a b : String) : Prop :=
  Relation.TransGen (fun x y => y ∈ depsOf g x) a b

/-- A graph contains a (directed) cycle: some node depends on itself. -/
def HasCycle (g : Graph) : Prop := ∃ n, DependsOn g n n

/-- The seen-accumulator form of "this list is a dependencies-first
topological order": every element's direct dependencies occur among the
elements already seen. -/
def topoSortedFrom (g : Graph) : List String → List String → Prop
  | _, [] => True
  | seen, n :: rest =>
      (∀ d ∈ depsOf g n, d ∈ seen) ∧ topoSortedFrom g (seen ++ [n]) rest

/-- The insertion key (type directory, id-map key) under which the index
builder stores a file, `none` when the file is skipped. -/
def insKey (f : EntityFile) : Option (String × String) :=
  let firstSegment := (jsSplit '/' f.path).headD ""
  if firstSegment ∈ ENTITY_TYPES_SET then
    match f.data with
    | none => none
    | some data =>
        if jsTruthy (getField data "id") then
          match getField data "id" with
          | some jv => some (firstSegment, idKeyOf jv)
          | none => none
        else none
  else none

/-- The entity record the index builder stores for a file. -/
def entityOf (f : EntityFile) : Obj :=
  match f.data with
  | some data => mapSet data "_filePath" (JVal.s f.path)
  | none => []

/-- C1 failing input: a single change to an entity owned by no module
(the spec's scenario 4). -/
def idxC1 : EntityIndex := {}

/-- The orphan change list for the C1 failing input. -/
def changesC1 : List Change :=
  [{ file := "categories/Loose.json", entityType := "categories",
     changeType := Bump.minor, reason := none }]

/-- C2 failing input: one module-owned minor change together with a
`VERSION_OVERRIDES.json` of `{ ontology: "major" }`. -/
def idxC2 : EntityIndex :=
  { modules := [("Core", [("id", JVal.s "Core"), ("categories", JVal.l ["Agent"])])] }

/-- The change list for the C2 failing input. -/
def changesC2 : List Change :=
  [{ file := "categories/Agent.json", entityType := "categories",
     changeType := Bump.minor, reason := none }]

/-- The override table for the C2 failing input. -/
def overridesC2 : List (String × Bump) := [("ontology", Bump.major)]

/-- C3 counterexample input: module "M" lists category "X" in its
contents, but "X" is absent from the categories index. -/
def idxC3 : EntityIndex :=
  { modules := [("M", [("id", JVal.s "M"), ("categories", JVal.l ["X"])])] }

/-- Witness module for the amended C3 statement: one dependency and one
category, both present in the index. -/
def mC3w : Obj :=
  [("id", JVal.s "M"), ("dependencies", JVal.l ["D"]), ("categories", JVal.l ["C"])]

/-- Witness entity index for the amended C3 statement. -/
def idxC3w : EntityIndex :=
  { modules := [("M", mC3w), ("D", [("id", JVal.s "D")])],
    categories := [("C", [("id", JVal.s "C"), ("_filePath", JVal.s "categories/C.json")])] }

/-- C9 counterexample file 1: categories/A.json with id "A". -/
def fileC9a : EntityFile :=
  { path := "categories/A.json", data := some [("id", JVal.s "A"), ("label", JVal.s "1")] }

/-- C9 counterexample file 2: categories/B.json carrying the SAME id "A". -/
def fileC9b : EntityFile :=
  { path := "categories/B.json", data := some [("id", JVal.s "A"), ("label", JVal.s "2")] }

/-- C10 counterexample index: module "M" lists the template id "Page",
while the templates directory holds both "Page" and the nested
"Property/Page". -/
def idxC10 : EntityIndex :=
  { modules := [("M", [("id", JVal.s "M"), ("templates", JVal.l ["Page"])])],
    templates := [("Property/Page", [("id", JVal.s "Property/Page")]),
                  ("Page", [("id", JVal.s "Page")])] }

/-- C10 counterexample change list: a change to the nested template
file. -/
def changesC10 : List Change :=
  [{ file := "templates/Property/Page.json", entityType := "templates",
     changeType := Bump.minor, reason := none }]

/-- C9 witness file: categories/B.json with the distinct id "B". -/
def fileC9c : EntityFile :=
  { path := "categories/B.json", data := some [("id", JVal.s "B"), ("label", JVal.s "2")] }

/-- Invariant of the cascade fold: every processed module dominates the
bumps of everything it transitively depends on, and its transitive
dependencies are all processed. -/
def CascadeInv (g : Graph) (seen : List String) (R : List (String × Bump)) : Prop :=
  ∀ a ∈ seen, ∀ b2, DependsOn g a b2 →
    b2 ∈ seen ∧ ∀ v, mapGet R b2 = some v → BUMP_PRIORITY v ≤ prioOpt (mapGet R a)

/-- C4 witness graph: A depends on B (acyclic). -/
def gC4 : Graph := [("A", ["B"]), ("B", [])]

/-- C4 witness initial bump map: only B has a bump. -/
def mC4 : List (String × Bump) := [("B", Bump.minor)]

/-- C5 witness graph: a two-node dependency cycle. -/
def gC5 : Graph := [("A", ["B"]), ("B", ["A"])]

/-- C5 witness initial bump map. -/
def mC5 : List (String × Bump) := [("A", Bump.minor), ("B", Bump.minor)]

/- ----------------------------------------------------------------- -/
/- Theorems                                                          -/
/- ----------------------------------------------------------------- -/

theorem mapGet_mapSet_self {α : Type} (m : List (String × α)) (k : String) (v : α) :
    mapGet (mapSet m k v) k = some v := by
  induction m with
  | nil => simp [mapGet, mapSet]
  | cons h t ih =>
      by_cases hk : h.1 = k
      · simp [mapSet, hk, mapGet]
      · simp [mapSet, hk, mapGet, ih]

theorem mapGet_mapSet_ne {α : Type} (m : List (String × α)) (k k2 : String) (v : α)
    (h : k2 ≠ k) : mapGet (mapSet m k v) k2 = mapGet m k2 := by
  have hne : k ≠ k2 := fun hh => h hh.symm
  induction m with
  | nil => simp [mapSet, mapGet, hne]
  | cons hd t ih =>
      obtain ⟨a, b⟩ := hd
      by_cases hk : a = k
      · subst hk
        simp [mapSet, mapGet, hne]
      · simp [mapSet, mapGet, hk, ih]

theorem mapGet_mem {α : Type} {m : List (String × α)} {k : String} {v : α}
    (h : mapGet m k = some v) : (k, v) ∈ m := by
  induction m with
  | nil => simp [mapGet] at h
  | cons hd t ih =>
      obtain ⟨a, b⟩ := hd
      by_cases hk : a = k
      · subst hk
        have hb : b = v := by simpa [mapGet] using h
        subst hb
        exact List.mem_cons_self _ _
      · simp only [mapGet, hk, if_false] at h
        exact List.mem_cons_of_mem _ (ih h)

theorem mapGet_key_mem {α : Type} {m : List (String × α)} {k : String} {v : α}
    (h : mapGet m k = some v) : k ∈ m.map Prod.fst := by
  have hm := mapGet_mem h
  exact List.mem_map_of_mem Prod.fst hm

theorem BUMP_PRIORITY_pos (b : Bump) : 1 ≤ BUMP_PRIORITY b := by
  cases b <;> simp [BUMP_PRIORITY]

theorem maxStep_snd (a : Bump × Nat) (b : Bump) (h : a.2 = BUMP_PRIORITY a.1) :
    (maxStep a b).2 = BUMP_PRIORITY (maxStep a b).1 := by
  unfold maxStep
  split
  · rfl
  · exact h

theorem foldl_maxStep_snd (l : List Bump) (a : Bump × Nat)
    (h : a.2 = BUMP_PRIORITY a.1) :
    (l.foldl maxStep a).2 = BUMP_PRIORITY (l.foldl maxStep a).1 := by
  induction l generalizing a with
  | nil => simpa using h
  | cons x t ih => exact ih _ (maxStep_snd a x h)

theorem le_foldl_maxStep (l : List Bump) (a : Bump × Nat) :
    a.2 ≤ (l.foldl maxStep a).2 := by
  induction l generalizing a with
  | nil => simp
  | cons x t ih =>
      refine le_trans ?_ (ih (maxStep a x))
      unfold maxStep
      split
      · next hc => exact le_of_lt hc
      · exact le_refl _

theorem mem_le_foldl_maxStep (l : List Bump) (a : Bump × Nat) (x : Bump)
    (hx : x ∈ l) : BUMP_PRIORITY x ≤ (l.foldl maxStep a).2 := by
  induction l generalizing a with
  | nil => cases hx
  | cons y t ih =>
      rcases List.mem_cons.mp hx with h | h
      · subst h
        refine le_trans ?_ (le_foldl_maxStep t (maxStep a x))
        unfold maxStep
        split
        · exact le_refl _
        · next hc => exact Nat.le_of_not_lt hc
      · exact ih (maxStep a y) h

theorem le_maxBumpType {l : List Bump} {x : Bump} (hx : x ∈ l) :
    BUMP_PRIORITY x ≤ BUMP_PRIORITY (maxBumpType l) := by
  have hne : l.isEmpty = false := by
    cases l with
    | nil => cases hx
    | cons a t => rfl
  unfold maxBumpType
  rw [hne]
  simp only [Bool.false_eq_true, if_false]
  rw [← foldl_maxStep_snd l (Bump.patch, BUMP_PRIORITY Bump.patch) rfl]
  exact mem_le_foldl_maxStep l _ x hx

/-- C1: the claim (matching the repository's own test suite, which
asserts `calculateOntologyBump(moduleBumps, bundleBumps)` is the max of
the two maps and `null` when both are empty) is contradicted by the
code: `calculateOntologyBump` takes the raw change list, counts orphan
changes, and never yields null — an orphan-only change list produces
empty module and bundle bump maps yet an ontology bump of "minor", and
an empty change list produces "patch" rather than null. -/
theorem ontologyBump_ignores_maps_and_counts_orphans :
    (calculateVersionCascade idxC1 changesC1 false []).moduleBumps = [] ∧
    (calculateVersionCascade idxC1 changesC1 false []).bundleBumps = [] ∧
    (calculateVersionCascade idxC1 changesC1 false []).orphanChanges = changesC1 ∧
    (calculateVersionCascade idxC1 changesC1 false []).ontologyBump = Bump.minor ∧
    (calculateVersionCascade idxC1 [] false []).ontologyBump = Bump.patch := by
  decide

/-- C2: the claimed ontology-override guard (asserted by the
repository's own test `applies ontology override from
VERSION_OVERRIDES.json`) does not exist in the code: with a module bump
present and an override `ontology: major`, the final ontology bump stays
at the change-derived "minor" instead of "major", the literal key
"ontology" is instead inserted into the module bump map, and with no
changes at all the ontology bump is "patch", not null. -/
theorem ontology_override_never_applied :
    (calculateVersionCascade idxC2 changesC2 true overridesC2).ontologyBump = Bump.minor ∧
    mapGet (calculateVersionCascade idxC2 changesC2 true overridesC2).moduleBumps "Core" =
      some Bump.minor ∧
    mapGet (calculateVersionCascade idxC2 changesC2 true overridesC2).moduleBumps "ontology" =
      some Bump.major ∧
    (calculateVersionCascade idxC2 [] true overridesC2).ontologyBump = Bump.patch := by
  decide

theorem artifactEntities_eq (idx : EntityIndex) (m : Obj) (t : String) :
    artifactEntities idx m t =
      (getListField m t).filterMap
        (fun i => (mapGet (idxTypeMap idx t) i).map removeFilePath) := by
  unfold artifactEntities
  congr 1
  funext i
  cases mapGet (idxTypeMap idx t) i <;> rfl

/-- C3 counterexample: generating the artifact for a module whose
contents reference a category id absent from the categories index does
NOT throw — it succeeds with an empty categories array (the missing
entity is silently skipped), refuting "is a hard error whenever any id
listed in M's contents is absent from the corresponding type index". -/
theorem missing_content_entity_does_not_throw :
    artifactCategoriesOf (generateModuleArtifact "M" "1.0.0" "2025-01-01T00:00:00.000Z" idxC3) =
      some [] := by
  decide

/-- C3 amended: `generateModuleArtifact` throws exactly when the module
id is absent from the module index or some declared dependency module id
is absent; otherwise it succeeds, and every content id that IS present
in its type index contributes its full entity content with the
bookkeeping `_filePath` field removed, while absent content ids are
silently skipped. -/
theorem generateModuleArtifact_spec (idx : EntityIndex) (moduleId version now : String) :
    (mapGet idx.modules moduleId = none →
      generateModuleArtifact moduleId version now idx =
        Except.error ("Module not found: " ++ moduleId)) ∧
    (∀ m, mapGet idx.modules moduleId = some m →
      ((∃ d ∈ getListField m "dependencies", mapGet idx.modules d = none) →
        ∃ d ∈ getListField m "dependencies", mapGet idx.modules d = none ∧
          generateModuleArtifact moduleId version now idx =
            Except.error ("Dependency module not found: " ++ d)) ∧
      ((∀ d ∈ getListField m "dependencies", (mapGet idx.modules d).isSome) →
        ∃ a, generateModuleArtifact moduleId version now idx = Except.ok a ∧
          a.categories = (getListField m "categories").filterMap
            (fun i => (mapGet idx.categories i).map removeFilePath) ∧
          a.properties = (getListField m "properties").filterMap
            (fun i => (mapGet idx.properties i).map removeFilePath) ∧
          a.subobjects = (getListField m "subobjects").filterMap
            (fun i => (mapGet idx.subobjects i).map removeFilePath) ∧
          a.templates = (getListField m "templates").filterMap
            (fun i => (mapGet idx.templates i).map removeFilePath))) := by
  constructor
  · intro hnone
    unfold generateModuleArtifact
    rw [hnone]
  · intro m hm
    constructor
    · intro hmiss
      obtain ⟨d0, hd0⟩ : ∃ d0, (getListField m "dependencies").find?
          (fun depId => (mapGet idx.modules depId).isNone) = some d0 := by
        rcases hmiss with ⟨d, hdmem, hdnone⟩
        cases hfind : (getListField m "dependencies").find?
            (fun depId => (mapGet idx.modules depId).isNone) with
        | none =>
            exfalso
            have hh := List.find?_eq_none.mp hfind d hdmem
            rw [hdnone] at hh
            exact hh rfl
        | some x => exact ⟨x, rfl⟩
      have hd0none : mapGet idx.modules d0 = none := by
        have hp := List.find?_some hd0
        exact Option.isNone_iff_eq_none.mp hp
      refine ⟨d0, List.mem_of_find?_eq_some hd0, hd0none, ?_⟩
      unfold generateModuleArtifact
      rw [hm]
      simp only [hd0]
    · intro hall
      have hfind : (getListField m "dependencies").find?
          (fun depId => (mapGet idx.modules depId).isNone) = none := by
        apply List.find?_eq_none.mpr
        intro d hd
        have hs := hall d hd
        cases hx : mapGet idx.modules d with
        | none => rw [hx] at hs; simp at hs
        | some y => simp [hx]
      refine ⟨{ schemaUrl := "https://labki.org/schemas/module-version.schema.json",
                id := moduleId, version := version, generated := now,
                dependencies := (getListField m "dependencies").map
                  (fun depId =>
                    (depId, (mapGet idx.modules depId).bind
                      (fun d => getStrField d "version"))),
                categories := artifactEntities idx m "categories",
                properties := artifactEntities idx m "properties",
                subobjects := artifactEntities idx m "subobjects",
                templates := artifactEntities idx m "templates" }, ?_, ?_, ?_, ?_, ?_⟩
      · unfold generateModuleArtifact
        rw [hm]
        simp only [hfind]
      · exact artifactEntities_eq idx m "categories"
      · exact artifactEntities_eq idx m "properties"
      · exact artifactEntities_eq idx m "subobjects"
      · exact artifactEntities_eq idx m "templates"


theorem generateModuleArtifact_spec_witness :
    ∃ a, generateModuleArtifact "M" "1.0.0" "T" idxC3w = Except.ok a ∧
      a.categories = (getListField mC3w "categories").filterMap
        (fun i => (mapGet idxC3w.categories i).map removeFilePath) ∧
      a.properties = (getListField mC3w "properties").filterMap
        (fun i => (mapGet idxC3w.properties i).map removeFilePath) ∧
      a.subobjects = (getListField mC3w "subobjects").filterMap
        (fun i => (mapGet idxC3w.subobjects i).map removeFilePath) ∧
      a.templates = (getListField mC3w "templates").filterMap
        (fun i => (mapGet idxC3w.templates i).map removeFilePath) :=
  ((generateModuleArtifact_spec idxC3w "M" "1.0.0" "T").2 mC3w (by decide)).2 (by decide)

/-- C9 counterexample: two enumerations of the same two entity files,
differing only in order, where both files carry the id "A" within the
categories directory, produce different indexes (the later file wins),
refuting order-independence in the duplicate-id case. -/
theorem buildEntityIndex_order_dependent_with_duplicate_ids :
    mapGet (buildEntityIndex [fileC9a, fileC9b]).categories "A" ≠
      mapGet (buildEntityIndex [fileC9b, fileC9a]).categories "A" := by
  decide

/-- C10 counterexample: the change to templates/Property/Page.json (an
entity whose path-derived id "Property/Page" contains "/") is NOT
classified as an orphan change when some module lists a template id
equal to the bare final segment "Page" — the change is attributed to
that module and bumps it, refuting "always classified as orphan
changes, contributing no module bump". -/
theorem nested_template_change_misattributed_to_basename_owner :
    (calculateVersionCascade idxC10 changesC10 false []).orphanChanges = [] ∧
    mapGet (calculateVersionCascade idxC10 changesC10 false []).moduleBumps "M" =
      some Bump.minor ∧
    parseEntityPath "templates/Property/Page.json" =
      { entityType := "templates", entityId := "Page" } := by
  decide

/-- C6: the first four classification rules of `detectBreakingChange`,
in order with the first match winning: deletion is major with reason
"<type> deleted: <id>"; addition is minor; both absent is patch; an id
change between two existing entities is major with reason
"id changed: <old> -> <new>". -/
theorem detectBreakingChange_base_rules (t : String) (b p : Obj) :
    detectBreakingChange t (some b) none =
      { isBreaking := true, changeType := Bump.major,
        reason := some (t ++ " deleted: " ++ jsShow (getField b "id")) } ∧
    detectBreakingChange t none (some p) =
      { isBreaking := false, changeType := Bump.minor, reason := none } ∧
    detectBreakingChange t none none =
      { isBreaking := false, changeType := Bump.patch, reason := none } ∧
    (getField b "id" ≠ getField p "id" →
      detectBreakingChange t (some b) (some p) =
        { isBreaking := true, changeType := Bump.major,
          reason := some ("id changed: " ++ jsShow (getField b "id") ++
            " -> " ++ jsShow (getField p "id")) }) := by
  refine ⟨rfl, rfl, rfl, ?_⟩
  intro h
  simp only [detectBreakingChange]
  rw [if_pos h]

theorem detectBreakingChange_base_rules_witness :
    detectBreakingChange "properties" (some [("id", JVal.s "Old")])
        (some [("id", JVal.s "New")]) =
      { isBreaking := true, changeType := Bump.major,
        reason := some "id changed: Old -> New" } :=
  (detectBreakingChange_base_rules "properties" [("id", JVal.s "Old")]
    [("id", JVal.s "New")]).2.2.2 (by decide)

theorem checkEntity_properties (b p : Obj) :
    checkEntityBreakingChanges "properties" b p = checkPropertyBreakingChanges b p := by
  unfold checkEntityBreakingChanges
  rw [if_pos rfl]

theorem detect_of_checkEntity_some (t : String) (b p : Obj) (r : ChangeResult)
    (hid : getField b "id" = getField p "id")
    (hc : checkEntityBreakingChanges t b p = some r) :
    detectBreakingChange t (some b) (some p) = r := by
  simp only [detectBreakingChange]
  rw [if_neg (fun hh => hh hid), hc]

theorem detect_of_checkEntity_none (t : String) (b p : Obj)
    (hid : getField b "id" = getField p "id")
    (hc : checkEntityBreakingChanges t b p = none) :
    detectBreakingChange t (some b) (some p) =
      (if ((addedKeys b p).filter (fun k => k ≠ "_filePath")).length > 0 then
        { isBreaking := false, changeType := Bump.minor, reason := none }
      else if ((updatedKeys b p).filter (fun k => k ≠ "_filePath")).length > 0 then
        { isBreaking := false, changeType := Bump.patch, reason := none }
      else
        { isBreaking := false, changeType := Bump.patch, reason := none }) := by
  simp only [detectBreakingChange]
  rw [if_neg (fun hh => hh hid), hc]

theorem checkProperty_datatype (b p : Obj) (h : keyUpdated b p "datatype" = true) :
    checkPropertyBreakingChanges b p =
      some { isBreaking := true, changeType := Bump.major,
             reason := some ("datatype changed: " ++ jsShow (getField b "datatype") ++
               " -> " ++ jsShow (getField p "datatype")) } := by
  unfold checkPropertyBreakingChanges
  rw [if_pos h]

theorem detect_changeType_major_of_id_ne (t : String) (b p : Obj)
    (h : getField b "id" ≠ getField p "id") :
    (detectBreakingChange t (some b) (some p)).changeType = Bump.major := by
  simp only [detectBreakingChange]
  rw [if_pos h]

/-- C7: the property-specific classification rules.  (a) a changed
datatype yields major; (b) cardinality restricted from multiple to
single yields major; (b') cardinality relaxed from single to multiple
does not trigger the type-specific checker (it returns none) and the
classification is decided by the generic added/updated-field rules;
(c) with allowed_values present in both versions, a value removed from
the base yields major, and otherwise a value added in the PR yields
minor. -/
theorem checkPropertyBreakingChanges_rules (b p : Obj) :
    (keyUpdated b p "datatype" = true →
      (detectBreakingChange "properties" (some b) (some p)).changeType = Bump.major) ∧
    (getField b "cardinality" = some (JVal.s "multiple") →
      getField p "cardinality" = some (JVal.s "single") →
      (detectBreakingChange "properties" (some b) (some p)).changeType = Bump.major) ∧
    (getField b "id" = getField p "id" →
      keyUpdated b p "datatype" = false →
      getField b "cardinality" = some (JVal.s "single") →
      getField p "cardinality" = some (JVal.s "multiple") →
      getField b "allowed_values" = getField p "allowed_values" →
      checkPropertyBreakingChanges b p = none ∧
      detectBreakingChange "properties" (some b) (some p) =
        (if ((addedKeys b p).filter (fun k => k ≠ "_filePath")).length > 0 then
          { isBreaking := false, changeType := Bump.minor, reason := none }
        else if ((updatedKeys b p).filter (fun k => k ≠ "_filePath")).length > 0 then
          { isBreaking := false, changeType := Bump.patch, reason := none }
        else
          { isBreaking := false, changeType := Bump.patch, reason := none })) ∧
    (∀ avb avp, getField b "allowed_values" = some (JVal.l avb) →
      getField p "allowed_values" = some (JVal.l avp) →
      (∃ v ∈ avb, ¬ v ∈ avp) →
      (detectBreakingChange "properties" (some b) (some p)).changeType = Bump.major) ∧
    (∀ avb avp, getField b "id" = getField p "id" →
      keyUpdated b p "datatype" = false →
      ¬ (getField b "cardinality" = some (JVal.s "multiple") ∧
         getField p "cardinality" = some (JVal.s "single")) →
      getField b "allowed_values" = some (JVal.l avb) →
      getField p "allowed_values" = some (JVal.l avp) →
      (∀ v ∈ avb, v ∈ avp) →
      (∃ v ∈ avp, ¬ v ∈ avb) →
      detectBreakingChange "properties" (some b) (some p) =
        { isBreaking := false, changeType := Bump.minor, reason := none }) := by
  refine ⟨?_, ?_, ?_, ?_, ?_⟩
  · -- (a) datatype changed
    intro h
    by_cases hid : getField b "id" ≠ getField p "id"
    · exact detect_changeType_major_of_id_ne _ b p hid
    · rw [detect_of_checkEntity_some "properties" b p _ (not_not.mp hid)
        ((checkEntity_properties b p).trans (checkProperty_datatype b p h))]
  · -- (b) cardinality multiple -> single
    intro hb hp
    by_cases hid : getField b "id" ≠ getField p "id"
    · exact detect_changeType_major_of_id_ne _ b p hid
    · by_cases hdt : keyUpdated b p "datatype" = true
      · rw [detect_of_checkEntity_some "properties" b p _ (not_not.mp hid)
          ((checkEntity_properties b p).trans (checkProperty_datatype b p hdt))]
      · have hcard : keyUpdated b p "cardinality" = true := by
          unfold keyUpdated
          rw [hb, hp]
          rfl
        have hc : checkPropertyBreakingChanges b p =
            some { isBreaking := true, changeType := Bump.major,
                   reason := some "cardinality restricted: multiple -> single" } := by
          unfold checkPropertyBreakingChanges
          rw [if_neg hdt, if_pos ⟨hcard, hb, hp⟩]
        rw [detect_of_checkEntity_some "properties" b p _ (not_not.mp hid)
          ((checkEntity_properties b p).trans hc)]
  · -- (b') cardinality single -> multiple falls through
    intro hid hdt hbs hpm hav
    have hnone : checkPropertyBreakingChanges b p = none := by
      unfold checkPropertyBreakingChanges
      rw [if_neg (by simp [hdt])]
      rw [if_neg (by rintro ⟨h1, h2, h3⟩; rw [hbs] at h2; simp at h2)]
      by_cases htr : jsTruthy (getField b "allowed_values") = true ∧
          jsTruthy (getField p "allowed_values") = true
      · rw [if_pos htr, hav]
        have hfind : ((getField p "allowed_values").elim [] jsSetElems).find?
            (fun v => ¬ v ∈ ((getField p "allowed_values").elim [] jsSetElems)) = none := by
          apply List.find?_eq_none.mpr
          intro x hx
          simp [hx]
        simp only [hfind]
      · rw [if_neg htr]
    refine ⟨hnone, ?_⟩
    exact detect_of_checkEntity_none "properties" b p hid
      ((checkEntity_properties b p).trans hnone)
  · -- (c) allowed value removed
    intro avb avp hba hpa hrem
    by_cases hid : getField b "id" ≠ getField p "id"
    · exact detect_changeType_major_of_id_ne _ b p hid
    · by_cases hdt : keyUpdated b p "datatype" = true
      · rw [detect_of_checkEntity_some "properties" b p _ (not_not.mp hid)
          ((checkEntity_properties b p).trans (checkProperty_datatype b p hdt))]
      · by_cases hc2 : keyUpdated b p "cardinality" = true ∧
            getField b "cardinality" = some (JVal.s "multiple") ∧
            getField p "cardinality" = some (JVal.s "single")
        · have hc : checkPropertyBreakingChanges b p =
              some { isBreaking := true, changeType := Bump.major,
                     reason := some "cardinality restricted: multiple -> single" } := by
            unfold checkPropertyBreakingChanges
            rw [if_neg hdt, if_pos hc2]
          rw [detect_of_checkEntity_some "properties" b p _ (not_not.mp hid)
            ((checkEntity_properties b p).trans hc)]
        · obtain ⟨v0, hv0⟩ : ∃ v0, avb.find? (fun v => ¬ v ∈ avp) = some v0 := by
            rcases hrem with ⟨v, hv1, hv2⟩
            cases hf : avb.find? (fun v => ¬ v ∈ avp) with
            | none =>
                exfalso
                have hh := List.find?_eq_none.mp hf v hv1
                simp at hh
                exact hv2 hh
            | some x => exact ⟨x, rfl⟩
          have hc : checkPropertyBreakingChanges b p =
              some { isBreaking := true, changeType := Bump.major,
                     reason := some ("allowed_values removed: " ++ v0) } := by
            unfold checkPropertyBreakingChanges
            rw [if_neg hdt, if_neg hc2]
            rw [if_pos (by rw [hba, hpa]; exact ⟨rfl, rfl⟩)]
            rw [hba, hpa]
            simp only [Option.elim, jsSetElems, hv0]
          rw [detect_of_checkEntity_some "properties" b p _ (not_not.mp hid)
            ((checkEntity_properties b p).trans hc)]
  · -- (c) allowed value added (and none removed)
    intro avb avp hid hdt hnc hba hpa hsub hadd2
    have hrem : avb.find? (fun v => ¬ v ∈ avp) = none := by
      apply List.find?_eq_none.mpr
      intro x hx
      simp [hsub x hx]
    obtain ⟨w0, hw0⟩ : ∃ w0, avp.find? (fun v => ¬ v ∈ avb) = some w0 := by
      rcases hadd2 with ⟨w, hw1, hw2⟩
      cases hf : avp.find? (fun v => ¬ v ∈ avb) with
      | none =>
          exfalso
          have hh := List.find?_eq_none.mp hf w hw1
          simp at hh
          exact hw2 hh
      | some x => exact ⟨x, rfl⟩
    have hc : checkPropertyBreakingChanges b p =
        some { isBreaking := false, changeType := Bump.minor, reason := none } := by
      unfold checkPropertyBreakingChanges
      rw [if_neg (by simp [hdt])]
      rw [if_neg (by rintro ⟨h1, h2, h3⟩; exact hnc ⟨h2, h3⟩)]
      rw [if_pos (by rw [hba, hpa]; exact ⟨rfl, rfl⟩)]
      rw [hba, hpa]
      simp only [Option.elim, jsSetElems, hrem, hw0]
    exact detect_of_checkEntity_some "properties" b p _ hid
      ((checkEntity_properties b p).trans hc)

theorem checkPropertyBreakingChanges_rules_witness :
    detectBreakingChange "properties"
        (some [("id", JVal.s "Status"), ("datatype", JVal.s "Text"),
               ("allowed_values", JVal.l ["A"])])
        (some [("id", JVal.s "Status"), ("datatype", JVal.s "Text"),
               ("allowed_values", JVal.l ["A", "B"])]) =
      { isBreaking := false, changeType := Bump.minor, reason := none } :=
  (checkPropertyBreakingChanges_rules
      [("id", JVal.s "Status"), ("datatype", JVal.s "Text"),
       ("allowed_values", JVal.l ["A"])]
      [("id", JVal.s "Status"), ("datatype", JVal.s "Text"),
       ("allowed_values", JVal.l ["A", "B"])]).2.2.2.2 ["A"] ["A", "B"]
    (by decide) (by decide) (by decide) (by decide) (by decide)
    (by decide) (by decide)

theorem bumpToStr_data_length (c : Bump) : (bumpToStr c).data.length = 5 := by
  cases c <;> rfl

theorem mkDowngradeWarning_inj_id {a a2 : String} {c o c2 o2 : Bump}
    (h : mkDowngradeWarning a c o = mkDowngradeWarning a2 c2 o2) : a = a2 := by
  have hd := congrArg String.data h
  simp only [mkDowngradeWarning, String.data_append, List.append_assoc] at hd
  have h2 := List.append_cancel_left hd
  have hlen : ∀ x y : Bump,
      (" from ".data ++ ((bumpToStr x).data ++ (" to ".data ++ (bumpToStr y).data))).length =
        20 := by
    intro x y
    cases x <;> cases y <;> rfl
  have h3 := List.append_inj' h2 (by rw [hlen, hlen])
  exact String.ext h3.1

theorem applyOverrides_fold_bumps_other (calc2 : List (String × Bump)) :
    ∀ (ov : List (String × Bump)) (acc : OverrideResult) (k : String),
      ¬ k ∈ ov.map Prod.fst →
      mapGet (ov.foldl (applyOverridesStep calc2) acc).bumps k = mapGet acc.bumps k := by
  intro ov
  induction ov with
  | nil => intro acc k _; rfl
  | cons q rest ih =>
      intro acc k hk
      have hk1 : k ≠ q.1 := fun hh => hk (by rw [hh]; exact List.mem_map_of_mem _ (List.mem_cons_self q rest))
      have hk2 : ¬ k ∈ rest.map Prod.fst := fun hh => hk (List.mem_cons_of_mem _ hh)
      rw [List.foldl_cons, ih _ k hk2]
      show mapGet (mapSet acc.bumps q.1 q.2) k = mapGet acc.bumps k
      exact mapGet_mapSet_ne acc.bumps q.1 k q.2 hk1

theorem applyOverrides_fold_bumps_mem (calc2 : List (String × Bump)) :
    ∀ (ov : List (String × Bump)) (acc : OverrideResult) (id : String) (o : Bump),
      (ov.map Prod.fst).Nodup → (id, o) ∈ ov →
      mapGet (ov.foldl (applyOverridesStep calc2) acc).bumps id = some o := by
  intro ov
  induction ov with
  | nil => intro acc id o _ hmem; cases hmem
  | cons q rest ih =>
      intro acc id o hnd hmem
      rcases List.mem_cons.mp hmem with h | h
      · have hq1 : q.1 = id := by rw [← h]
        have hnotin : ¬ id ∈ rest.map Prod.fst := by
          rw [← hq1]
          exact (List.nodup_cons.mp hnd).1
        rw [List.foldl_cons, applyOverrides_fold_bumps_other calc2 rest _ id hnotin]
        show mapGet (mapSet acc.bumps q.1 q.2) id = some o
        rw [hq1, ← h]
        exact mapGet_mapSet_self acc.bumps id o
      · exact ih _ id o (List.nodup_cons.mp hnd).2 h

theorem applyOverrides_fold_warnings (calc2 : List (String × Bump)) :
    ∀ (ov : List (String × Bump)) (acc : OverrideResult),
      (ov.foldl (applyOverridesStep calc2) acc).warnings =
        acc.warnings ++ ov.filterMap (warnFn calc2) := by
  intro ov
  induction ov with
  | nil => intro acc; simp
  | cons q rest ih =>
      intro acc
      rw [List.foldl_cons, ih]
      show (applyOverridesStep calc2 acc q).warnings ++ rest.filterMap (warnFn calc2) = _
      unfold applyOverridesStep warnFn
      cases hq : mapGet calc2 q.1 with
      | none => simp [List.filterMap_cons, hq]
      | some c =>
          by_cases hlt : BUMP_PRIORITY q.2 < BUMP_PRIORITY c
          · simp [List.filterMap_cons, hq, hlt]
          · simp [List.filterMap_cons, hq, hlt]

theorem warnFn_eval_some (calc2 : List (String × Bump)) (q : String × Bump) (c : Bump)
    (hq : mapGet calc2 q.1 = some c) :
    warnFn calc2 q =
      if BUMP_PRIORITY q.2 < BUMP_PRIORITY c then
        some (mkDowngradeWarning q.1 c q.2)
      else none := by
  unfold warnFn
  rw [hq]

theorem warnFn_eq_some {calc2 : List (String × Bump)} {q : String × Bump} {w : String}
    (h : warnFn calc2 q = some w) :
    ∃ c, mapGet calc2 q.1 = some c ∧ BUMP_PRIORITY q.2 < BUMP_PRIORITY c ∧
      w = mkDowngradeWarning q.1 c q.2 := by
  cases hq : mapGet calc2 q.1 with
  | none =>
      exfalso
      unfold warnFn at h
      rw [hq] at h
      cases h
  | some c =>
      rw [warnFn_eval_some calc2 q c hq] at h
      by_cases hlt : BUMP_PRIORITY q.2 < BUMP_PRIORITY c
      · rw [if_pos hlt] at h
        exact ⟨c, rfl, hlt, (Option.some.injEq _ _ ▸ h).symm⟩
      · rw [if_neg hlt] at h
        cases h

theorem count_filterMap_warn (calc2 : List (String × Bump)) :
    ∀ (ov : List (String × Bump)) (id : String) (c o : Bump),
      (ov.map Prod.fst).Nodup → (id, o) ∈ ov →
      mapGet calc2 id = some c → BUMP_PRIORITY o < BUMP_PRIORITY c →
      (ov.filterMap (warnFn calc2)).count (mkDowngradeWarning id c o) = 1 := by
  intro ov
  induction ov with
  | nil => intro id c o _ hmem; cases hmem
  | cons q rest ih =>
      intro id c o hnd hmem
      intro hcal hlt
      rcases List.mem_cons.mp hmem with h | h
      · have hq : q = (id, o) := h.symm
        subst hq
        have hw : warnFn calc2 (id, o) = some (mkDowngradeWarning id c o) := by
          rw [warnFn_eval_some calc2 (id, o) c hcal, if_pos hlt]
        rw [List.filterMap_cons, hw]
        rw [List.count_cons_self]
        have hzero : (rest.filterMap (warnFn calc2)).count (mkDowngradeWarning id c o) = 0 := by
          apply List.count_eq_zero_of_not_mem
          intro hmem2
          rcases List.mem_filterMap.mp hmem2 with ⟨q2, hq2mem, hq2⟩
          rcases warnFn_eq_some hq2 with ⟨c2, _, _, hweq⟩
          have hid2 : q2.1 = id := mkDowngradeWarning_inj_id hweq.symm
          have : id ∈ rest.map Prod.fst := hid2 ▸ List.mem_map_of_mem _ hq2mem
          exact (List.nodup_cons.mp hnd).1 this
        rw [hzero]
      · have hne : q.1 ≠ id := by
          intro hh
          have : id ∈ rest.map Prod.fst := by
            have := List.mem_map_of_mem Prod.fst h
            exact this
          exact (List.nodup_cons.mp hnd).1 (hh ▸ this)
        have hrest := ih id c o (List.nodup_cons.mp hnd).2 h hcal hlt
        rw [List.filterMap_cons]
        cases hw : warnFn calc2 q with
        | none => exact hrest
        | some w =>
            rcases warnFn_eq_some hw with ⟨c2, _, _, hweq⟩
            have hnew : mkDowngradeWarning id c o ≠ w := by
              intro hh
              exact hne (mkDowngradeWarning_inj_id (hweq ▸ hh)).symm
            rw [List.count_cons_of_ne hnew, hrest]

/-- C8: `applyOverrides` — for every override entry whose class strictly
lowers a calculated bump, exactly one override-downgrade warning naming
the id, the calculated class, and the override class is emitted; every
override entry's final bump is set to the override class
unconditionally; bumps of ids not mentioned by the override table are
unchanged. -/
theorem applyOverrides_spec (calculatedBumps overrides : List (String × Bump))
    (hnd : (overrides.map Prod.fst).Nodup) :
    (∀ id c o, (id, o) ∈ overrides → mapGet calculatedBumps id = some c →
      BUMP_PRIORITY o < BUMP_PRIORITY c →
      (applyOverrides calculatedBumps overrides).warnings.count
        (mkDowngradeWarning id c o) = 1) ∧
    (∀ id o, (id, o) ∈ overrides →
      mapGet (applyOverrides calculatedBumps overrides).bumps id = some o) ∧
    (∀ k, ¬ k ∈ overrides.map Prod.fst →
      mapGet (applyOverrides calculatedBumps overrides).bumps k =
        mapGet calculatedBumps k) := by
  refine ⟨?_, ?_, ?_⟩
  · intro id c o hmem hcal hlt
    unfold applyOverrides
    rw [applyOverrides_fold_warnings]
    show (([] : List String) ++ overrides.filterMap (warnFn calculatedBumps)).count _ = 1
    rw [List.nil_append]
    exact count_filterMap_warn calculatedBumps overrides id c o hnd hmem hcal hlt
  · intro id o hmem
    unfold applyOverrides
    exact applyOverrides_fold_bumps_mem calculatedBumps overrides _ id o hnd hmem
  · intro k hk
    unfold applyOverrides
    exact applyOverrides_fold_bumps_other calculatedBumps overrides _ k hk

theorem applyOverrides_spec_witness :
    (applyOverrides [("Core", Bump.major)] [("Core", Bump.minor), ("Lab", Bump.patch)]).warnings.count
        (mkDowngradeWarning "Core" Bump.major Bump.minor) = 1 ∧
    mapGet (applyOverrides [("Core", Bump.major)]
        [("Core", Bump.minor), ("Lab", Bump.patch)]).bumps "Core" = some Bump.minor ∧
    mapGet (applyOverrides [("Core", Bump.major)]
        [("Core", Bump.minor), ("Lab", Bump.patch)]).bumps "Other" =
      mapGet [("Core", Bump.major)] "Other" :=
  ⟨(applyOverrides_spec [("Core", Bump.major)] [("Core", Bump.minor), ("Lab", Bump.patch)]
      (by decide)).1 "Core" Bump.major Bump.minor (by decide) (by decide) (by decide),
   (applyOverrides_spec [("Core", Bump.major)] [("Core", Bump.minor), ("Lab", Bump.patch)]
      (by decide)).2.1 "Core" Bump.minor (by decide),
   (applyOverrides_spec [("Core", Bump.major)] [("Core", Bump.minor), ("Lab", Bump.patch)]
      (by decide)).2.2 "Other" (by decide)⟩

/-- C10 amended: the cascade engine derives the reverse-index lookup key
from only the final path segment (".json" stripped) — e.g.
templates/Property/Page.json yields the key for id "Page", not
"Property/Page".  A change is classified as an orphan change iff that
bare-segment key is absent from the reverse module index, and exactly
then it contributes nothing to any module bump; when some module lists
an id equal to the bare final segment, the change is attributed
(possibly misattributed) to that module instead of being an orphan. -/
theorem orphan_iff_basename_key_missing (idx : EntityIndex) (changes : List Change)
    (c : Change) :
    parseEntityPath "templates/Property/Page.json" =
      { entityType := "templates", entityId := "Page" } ∧
    (c ∈ changes →
      (c ∈ (calculateVersionCascade idx changes false []).orphanChanges ↔
        mapGet (buildReverseModuleIndex idx) (changeKey c) = none)) ∧
    (∀ l1 l2, mapGet (buildReverseModuleIndex idx) (changeKey c) = none →
      calculateModuleBumps idx (l1 ++ c :: l2) = calculateModuleBumps idx (l1 ++ l2)) := by
  refine ⟨by decide, ?_, ?_⟩
  · intro hc
    have hne : ¬ changes = [] := by
      intro hh
      rw [hh] at hc
      cases hc
    have horph : (calculateVersionCascade idx changes false []).orphanChanges =
        changes.filter
          (fun change => (mapGet (buildReverseModuleIndex idx) (changeKey change)).isNone) := by
      unfold calculateVersionCascade
      rw [if_neg hne]
    rw [horph, List.mem_filter]
    constructor
    · intro hh
      exact Option.isNone_iff_eq_none.mp hh.2
    · intro hh
      exact ⟨hc, Option.isNone_iff_eq_none.mpr hh⟩
  · intro l1 l2 hnone
    unfold calculateModuleBumps
    have hskip : ∀ acc : List (String × Bump),
        moduleBumpStep (buildReverseModuleIndex idx) acc c = acc := by
      intro acc
      unfold moduleBumpStep
      rw [hnone]
    rw [List.foldl_append, List.foldl_append, List.foldl_cons, hskip]

theorem orphan_iff_basename_key_missing_witness :
    ((⟨"templates/Property/Page.json", "templates", Bump.minor, none⟩ : Change) ∈
        (calculateVersionCascade idxC10 changesC10 false []).orphanChanges ↔
      mapGet (buildReverseModuleIndex idxC10)
        (changeKey ⟨"templates/Property/Page.json", "templates", Bump.minor, none⟩) = none) ∧
    calculateModuleBumps { }
        ([] ++ (⟨"templates/Property/Page.json", "templates", Bump.minor, none⟩ : Change) :: []) =
      calculateModuleBumps { } ([] ++ []) :=
  ⟨(orphan_iff_basename_key_missing idxC10 changesC10
      ⟨"templates/Property/Page.json", "templates", Bump.minor, none⟩).2.1 (by decide),
   (orphan_iff_basename_key_missing { } []
      ⟨"templates/Property/Page.json", "templates", Bump.minor, none⟩).2.2 [] [] (by decide)⟩


theorem idxTypeMap_idxSetType (idx : EntityIndex) (t2 i2 : String) (e : Obj) (t : String)
    (ht2 : t2 ∈ ENTITY_TYPES_SET) :
    idxTypeMap (idxSetType idx t2 i2 e) t =
      if t2 = t then mapSet (idxTypeMap idx t) i2 e else idxTypeMap idx t := by
  have hcases : t2 = "categories" ∨ t2 = "properties" ∨ t2 = "subobjects" ∨
      t2 = "templates" ∨ t2 = "modules" ∨ t2 = "bundles" ∨ t2 = "dashboards" ∨
      t2 = "resources" := by
    simpa [ENTITY_TYPES_SET] using ht2
  rcases hcases with h|h|h|h|h|h|h|h <;> subst h
  · rw [show idxSetType idx "categories" i2 e =
        { idx with categories := mapSet idx.categories i2 e } from rfl]
    split
    · next heq => subst heq; rfl
    · next hne => simp [idxTypeMap, Ne.symm hne]
  · rw [show idxSetType idx "properties" i2 e =
        { idx with properties := mapSet idx.properties i2 e } from rfl]
    split
    · next heq => subst heq; rfl
    · next hne => simp [idxTypeMap, Ne.symm hne]
  · rw [show idxSetType idx "subobjects" i2 e =
        { idx with subobjects := mapSet idx.subobjects i2 e } from rfl]
    split
    · next heq => subst heq; rfl
    · next hne => simp [idxTypeMap, Ne.symm hne]
  · rw [show idxSetType idx "templates" i2 e =
        { idx with templates := mapSet idx.templates i2 e } from rfl]
    split
    · next heq => subst heq; rfl
    · next hne => simp [idxTypeMap, Ne.symm hne]
  · rw [show idxSetType idx "modules" i2 e =
        { idx with modules := mapSet idx.modules i2 e } from rfl]
    split
    · next heq => subst heq; rfl
    · next hne => simp [idxTypeMap, Ne.symm hne]
  · rw [show idxSetType idx "bundles" i2 e =
        { idx with bundles := mapSet idx.bundles i2 e } from rfl]
    split
    · next heq => subst heq; rfl
    · next hne => simp [idxTypeMap, Ne.symm hne]
  · rw [show idxSetType idx "dashboards" i2 e =
        { idx with dashboards := mapSet idx.dashboards i2 e } from rfl]
    split
    · next heq => subst heq; rfl
    · next hne => simp [idxTypeMap, Ne.symm hne]
  · rw [show idxSetType idx "resources" i2 e =
        { idx with resources := mapSet idx.resources i2 e } from rfl]
    split
    · next heq => subst heq; rfl
    · next hne => simp [idxTypeMap, Ne.symm hne]

theorem indexInsert_of_insKey_none (idx : EntityIndex) (f : EntityFile)
    (h : insKey f = none) : indexInsert idx f = idx := by
  obtain ⟨path, data⟩ := f
  unfold insKey at h
  unfold indexInsert
  by_cases h1 : ((jsSplit '/' path).headD "") ∈ ENTITY_TYPES_SET
  · rw [if_pos h1] at h
    rw [if_pos h1]
    cases data with
    | none => rfl
    | some d =>
        by_cases h2 : jsTruthy (getField d "id") = true
        · rw [show ((match some d with
              | none => (none : Option (String × String))
              | some data =>
                  if jsTruthy (getField data "id") = true then
                    match getField data "id" with
                    | some jv => some (((jsSplit '/' path).headD ""), idKeyOf jv)
                    | none => none
                  else none) : Option (String × String)) =
              (if jsTruthy (getField d "id") = true then
                match getField d "id" with
                | some jv => some (((jsSplit '/' path).headD ""), idKeyOf jv)
                | none => none
              else none) from rfl] at h
          rw [if_pos h2] at h
          cases hid : getField d "id" with
          | none =>
              show (if jsTruthy (getField d "id") = true then _ else idx) = idx
              rw [if_pos h2]
              show (match getField d "id" with
                | some jv => idxSetType idx ((jsSplit '/' path).headD "")
                    (idKeyOf jv) (mapSet d "_filePath" (JVal.s path))
                | none => idx) = idx
              rw [hid]
          | some jv =>
              rw [hid] at h
              cases h
        · show (if jsTruthy (getField d "id") = true then _ else idx) = idx
          rw [if_neg h2]
  · rw [if_neg h1]

theorem indexInsert_of_insKey_some (idx : EntityIndex) (f : EntityFile)
    (t i : String) (h : insKey f = some (t, i)) :
    t ∈ ENTITY_TYPES_SET ∧ indexInsert idx f = idxSetType idx t i (entityOf f) := by
  obtain ⟨path, data⟩ := f
  unfold insKey at h
  unfold indexInsert entityOf
  by_cases h1 : ((jsSplit '/' path).headD "") ∈ ENTITY_TYPES_SET
  · rw [if_pos h1] at h
    rw [if_pos h1]
    cases data with
    | none => cases h
    | some d =>
        by_cases h2 : jsTruthy (getField d "id") = true
        · rw [show ((match some d with
              | none => (none : Option (String × String))
              | some data =>
                  if jsTruthy (getField data "id") = true then
                    match getField data "id" with
                    | some jv => some (((jsSplit '/' path).headD ""), idKeyOf jv)
                    | none => none
                  else none) : Option (String × String)) =
              (if jsTruthy (getField d "id") = true then
                match getField d "id" with
                | some jv => some (((jsSplit '/' path).headD ""), idKeyOf jv)
                | none => none
              else none) from rfl] at h
          rw [if_pos h2] at h
          cases hid : getField d "id" with
          | none => rw [hid] at h; cases h
          | some jv =>
              rw [hid] at h
              have ht : t = (jsSplit '/' path).headD "" := by
                cases h
                rfl
              have hi : i = idKeyOf jv := by
                cases h
                rfl
              subst ht
              subst hi
              refine ⟨h1, ?_⟩
              show (if jsTruthy (getField d "id") = true then _ else idx) = _
              rw [if_pos h2]
              show (match getField d "id" with
                | some jv => idxSetType idx ((jsSplit '/' path).headD "")
                    (idKeyOf jv) (mapSet d "_filePath" (JVal.s path))
                | none => idx) = _
              rw [hid]
        · rw [show ((match some d with
              | none => (none : Option (String × String))
              | some data =>
                  if jsTruthy (getField data "id") = true then
                    match getField data "id" with
                    | some jv => some (((jsSplit '/' path).headD ""), idKeyOf jv)
                    | none => none
                  else none) : Option (String × String)) =
              (if jsTruthy (getField d "id") = true then
                match getField d "id" with
                | some jv => some (((jsSplit '/' path).headD ""), idKeyOf jv)
                | none => none
              else none) from rfl] at h
          rw [if_neg h2] at h
          cases h
  · rw [if_neg h1] at h
    cases h

theorem buildEntityIndex_foldl_lookup :
    ∀ (files : List EntityFile) (idx0 : EntityIndex) (t i : String),
      mapGet (idxTypeMap (files.foldl indexInsert idx0) t) i =
        (match files.reverse.find? (fun f => insKey f = some (t, i)) with
          | some f => some (entityOf f)
          | none => mapGet (idxTypeMap idx0 t) i) := by
  intro files
  induction files with
  | nil => intro idx0 t i; rfl
  | cons f fs ih =>
      intro idx0 t i
      rw [List.foldl_cons, ih]
      rw [List.reverse_cons, List.find?_append]
      cases hfs : fs.reverse.find? (fun f => decide (insKey f = some (t, i))) with
      | some f2 => rfl
      | none =>
          show (mapGet (idxTypeMap (indexInsert idx0 f) t) i) =
            (match List.find? (fun f => decide (insKey f = some (t, i))) [f] with
              | some f => some (entityOf f)
              | none => mapGet (idxTypeMap idx0 t) i)
          cases hk : insKey f with
          | none =>
              rw [indexInsert_of_insKey_none idx0 f hk]
              have hp : List.find? (fun f => decide (insKey f = some (t, i))) [f] = none := by
                apply List.find?_eq_none.mpr
                intro x hx
                rcases List.mem_singleton.mp hx with rfl
                simp [hk]
              rw [hp]
          | some ti =>
              obtain ⟨t2, i2⟩ := ti
              obtain ⟨ht2mem, hins⟩ := indexInsert_of_insKey_some idx0 f t2 i2 hk
              rw [hins, idxTypeMap_idxSetType idx0 t2 i2 (entityOf f) t ht2mem]
              by_cases heq : t2 = t ∧ i2 = i
              · obtain ⟨h1, h2⟩ := heq
                subst h1
                subst h2
                rw [if_pos rfl]
                have hdec : decide (insKey f = some (t2, i2)) = true := by simp [hk]
                have hp : List.find? (fun g => decide (insKey g = some (t2, i2))) [f] =
                    some f := by
                  simp [List.find?_cons, hdec]
                rw [hp]
                exact mapGet_mapSet_self (idxTypeMap idx0 t2) i2 (entityOf f)
              · have hp : List.find? (fun f => decide (insKey f = some (t, i))) [f] = none := by
                  apply List.find?_eq_none.mpr
                  intro x hx
                  rcases List.mem_singleton.mp hx with rfl
                  simp only [hk, decide_eq_true_eq]
                  intro hc
                  have h1 : t2 = t := by cases hc; rfl
                  have h2 : i2 = i := by cases hc; rfl
                  exact heq ⟨h1, h2⟩
                rw [hp]
                by_cases ht : t2 = t
                · subst ht
                  rw [if_pos rfl]
                  have hii : i ≠ i2 := by
                    intro hh
                    exact heq ⟨rfl, hh.symm⟩
                  exact mapGet_mapSet_ne (idxTypeMap idx0 t2) i2 i (entityOf f) hii
                · rw [if_neg ht]

theorem insKey_unique {files : List EntityFile}
    (hnd : (files.filterMap insKey).Nodup)
    {a b : EntityFile} {k : String × String} (ha : a ∈ files) (hb : b ∈ files)
    (hka : insKey a = some k) (hkb : insKey b = some k) : a = b := by
  by_contra hne
  have hperm := List.perm_cons_erase ha
  have hb2 : b ∈ files.erase a := by
    rw [List.mem_erase_of_ne (fun hh => hne hh.symm)]
    exact hb
  have hnd2 : ((a :: files.erase a).filterMap insKey).Nodup :=
    ((List.Perm.filterMap insKey hperm).nodup_iff).mp hnd
  rw [List.filterMap_cons_some hka] at hnd2
  have hk_in : k ∈ (files.erase a).filterMap insKey :=
    List.mem_filterMap.mpr ⟨b, hb2, hkb⟩
  exact (List.nodup_cons.mp hnd2).1 hk_in

/-- C9 amended: the entity index is order-independent for file sets in
which no two files map to the same (type, id) insertion key: any two
enumerations that are permutations of each other yield indexes with
identical lookups on every type and id.  When two files within one type
directory carry the same id the builder is order-DEPENDENT (last writer
wins), as the counterexample shows. -/
theorem buildEntityIndex_order_independent (files1 files2 : List EntityFile)
    (hp : files1.Perm files2) (hnd : (files1.filterMap insKey).Nodup) :
    ∀ t i, mapGet (idxTypeMap (buildEntityIndex files1) t) i =
           mapGet (idxTypeMap (buildEntityIndex files2) t) i := by
  intro t i
  unfold buildEntityIndex
  rw [buildEntityIndex_foldl_lookup, buildEntityIndex_foldl_lookup]
  cases h1 : files1.reverse.find? (fun f => decide (insKey f = some (t, i))) with
  | some f =>
      have hf_mem : f ∈ files1 := List.mem_reverse.mp (List.mem_of_find?_eq_some h1)
      have hf_key : insKey f = some (t, i) := by
        have hh := List.find?_some h1
        simpa using hh
      cases h2 : files2.reverse.find? (fun f => decide (insKey f = some (t, i))) with
      | none =>
          exfalso
          have hh := List.find?_eq_none.mp h2 f
            (List.mem_reverse.mpr (hp.mem_iff.mp hf_mem))
          simp [hf_key] at hh
      | some g =>
          have hg_mem : g ∈ files2 := List.mem_reverse.mp (List.mem_of_find?_eq_some h2)
          have hg_key : insKey g = some (t, i) := by
            have hh := List.find?_some h2
            simpa using hh
          have hfg : f = g :=
            insKey_unique hnd hf_mem (hp.mem_iff.mpr hg_mem) hf_key hg_key
          rw [hfg]
  | none =>
      cases h2 : files2.reverse.find? (fun f => decide (insKey f = some (t, i))) with
      | some g =>
          exfalso
          have hg_mem : g ∈ files2 := List.mem_reverse.mp (List.mem_of_find?_eq_some h2)
          have hg_key : insKey g = some (t, i) := by
            have hh := List.find?_some h2
            simpa using hh
          have hh := List.find?_eq_none.mp h1 g
            (List.mem_reverse.mpr (hp.mem_iff.mpr hg_mem))
          simp [hg_key] at hh
      | none => rfl

theorem buildEntityIndex_order_independent_witness :
    [fileC9a, fileC9c].Perm [fileC9c, fileC9a] ∧
    ([fileC9a, fileC9c].filterMap insKey).Nodup ∧
    mapGet (idxTypeMap (buildEntityIndex [fileC9a, fileC9c]) "categories") "A" =
      mapGet (idxTypeMap (buildEntityIndex [fileC9c, fileC9a]) "categories") "A" :=
  ⟨by decide, by decide,
   buildEntityIndex_order_independent [fileC9a, fileC9c] [fileC9c, fileC9a]
     (by decide) (by decide) "categories" "A"⟩


theorem mem_nodes_of_mem_deps {g : Graph} {n d : String} (h : d ∈ depsOf g n) :
    n ∈ nodesOf g := by
  unfold depsOf at h
  cases hm : mapGet g n with
  | none => rw [hm] at h; cases h
  | some ds => exact mapGet_key_mem hm

theorem depsOf_subset_nodes {g : Graph} (hwf : WFGraph g) {n d : String}
    (h : d ∈ depsOf g n) : d ∈ nodesOf g := by
  unfold depsOf at h
  cases hm : mapGet g n with
  | none => rw [hm] at h; cases h
  | some ds =>
      rw [hm] at h
      exact hwf.2 (n, ds) (mapGet_mem hm) d h

theorem dependsOn_source_mem {g : Graph} {n m : String} (h : DependsOn g n m) :
    n ∈ nodesOf g := by
  induction h with
  | single h1 => exact mem_nodes_of_mem_deps h1
  | tail _ _ ih => exact ih

theorem mem_foldr_deps {g : Graph} {acc : List String} {y : String} :
    y ∈ acc.foldr (fun x r => depsOf g x ++ r) [] ↔ ∃ x ∈ acc, y ∈ depsOf g x := by
  induction acc with
  | nil => simp
  | cons a rest ih =>
      simp only [List.foldr_cons, List.mem_append, ih, List.mem_cons]
      constructor
      · rintro (h | ⟨x, hx, hy⟩)
        · exact ⟨a, Or.inl rfl, h⟩
        · exact ⟨x, Or.inr hx, hy⟩
      · rintro ⟨x, hx | hx, hy⟩
        · subst hx; exact Or.inl hy
        · exact Or.inr ⟨x, hx, hy⟩

theorem dependenciesOfAux_subset (g : Graph) :
    ∀ (fuel : Nat) (acc : List String), ∀ x ∈ acc, x ∈ dependenciesOfAux g fuel acc := by
  intro fuel
  induction fuel with
  | zero => intro acc x hx; exact hx
  | succ fuel2 ih =>
      intro acc x hx
      simp only [dependenciesOfAux]
      split
      · exact hx
      · exact ih _ x (List.mem_append_left _ hx)

theorem dependenciesOfAux_sound (g : Graph) (n : String) :
    ∀ (fuel : Nat) (acc : List String), (∀ x ∈ acc, DependsOn g n x) →
      ∀ x ∈ dependenciesOfAux g fuel acc, DependsOn g n x := by
  intro fuel
  induction fuel with
  | zero => intro acc h x hx; exact h x hx
  | succ fuel2 ih =>
      intro acc h x hx
      simp only [dependenciesOfAux] at hx
      split at hx
      · exact h x hx
      · refine ih _ ?_ x hx
        intro y hy
        rcases List.mem_append.mp hy with hy | hy
        · exact h y hy
        · have hy2 := List.mem_dedup.mp hy
          have hy3 := (List.mem_filter.mp hy2).1
          rcases mem_foldr_deps.mp hy3 with ⟨x0, hx0, hyx0⟩
          exact Relation.TransGen.tail (h x0 hx0) hyx0

theorem nodes_covered_of_card {u l : List String} (hnd : l.Nodup)
    (hsub : ∀ x ∈ l, x ∈ u) (hlen : u.dedup.length ≤ l.length) :
    ∀ x ∈ u, x ∈ l := by
  have h1 : l.toFinset ⊆ u.toFinset := by
    intro x hx
    exact List.mem_toFinset.mpr (hsub x (List.mem_toFinset.mp hx))
  have h2 : u.toFinset.card ≤ l.toFinset.card := by
    rw [List.toFinset_card_of_nodup hnd, List.card_toFinset]
    exact hlen
  have h3 := Finset.eq_of_subset_of_card_le h1 h2
  intro x hx
  have : x ∈ u.toFinset := List.mem_toFinset.mpr hx
  rw [← h3] at this
  exact List.mem_toFinset.mp this

theorem dependenciesOfAux_closed (g : Graph) (hwf : WFGraph g) :
    ∀ (fuel : Nat) (acc : List String), acc.Nodup → (∀ x ∈ acc, x ∈ nodesOf g) →
      (nodesOf g).dedup.length ≤ fuel + acc.length →
      ∀ a ∈ dependenciesOfAux g fuel acc, ∀ d ∈ depsOf g a,
        d ∈ dependenciesOfAux g fuel acc := by
  intro fuel
  induction fuel with
  | zero =>
      intro acc hnd hsub hlen a ha d hd
      have hall := nodes_covered_of_card hnd hsub (by simpa using hlen)
      exact hall d (depsOf_subset_nodes hwf hd)
  | succ fuel2 ih =>
      intro acc hnd hsub hlen a ha d hd
      simp only [dependenciesOfAux] at ha ⊢
      split at ha
      · next hnext =>
          rw [if_pos hnext]
          by_cases hdacc : d ∈ acc
          · exact hdacc
          · exfalso
            have hdbig : d ∈ acc.foldr (fun x r => depsOf g x ++ r) [] :=
              mem_foldr_deps.mpr ⟨a, ha, hd⟩
            have hdfil : d ∈ (acc.foldr (fun x r => depsOf g x ++ r) []).filter
                (fun d => ¬ d ∈ acc) := by
              rw [List.mem_filter]
              exact ⟨hdbig, by simpa using hdacc⟩
            have : d ∈ (((acc.foldr (fun x r => depsOf g x ++ r) []).filter
                (fun d => ¬ d ∈ acc)).dedup) := List.mem_dedup.mpr hdfil
            rw [hnext] at this
            cases this
      · next hnext =>
          rw [if_neg hnext]
          set next := (((acc.foldr (fun x r => depsOf g x ++ r) []).filter
            (fun d => ¬ d ∈ acc)).dedup) with hnextdef
          have hnextsub : ∀ y ∈ next, y ∈ nodesOf g := by
            intro y hy
            have hy2 := (List.mem_filter.mp (List.mem_dedup.mp hy)).1
            rcases mem_foldr_deps.mp hy2 with ⟨x0, hx0, hyx0⟩
            exact depsOf_subset_nodes hwf hyx0
          have hnextdisj : ∀ y ∈ next, ¬ y ∈ acc := by
            intro y hy
            have hy2 := (List.mem_filter.mp (List.mem_dedup.mp hy)).2
            simpa using hy2
          have hnd2 : (acc ++ next).Nodup := by
            rw [List.nodup_append]
            exact ⟨hnd, List.nodup_dedup _,
              fun x hx hx2 => hnextdisj x hx2 hx⟩
          have hsub2 : ∀ x ∈ acc ++ next, x ∈ nodesOf g := by
            intro x hx
            rcases List.mem_append.mp hx with hx | hx
            · exact hsub x hx
            · exact hnextsub x hx
          have hlen2 : (nodesOf g).dedup.length ≤ fuel2 + (acc ++ next).length := by
            rw [List.length_append]
            have hpos : 1 ≤ next.length := by
              cases hnx : next with
              | nil => exact absurd hnx hnext
              | cons y ys => simp
            omega
          exact ih (acc ++ next) hnd2 hsub2 hlen2 a ha d hd

theorem dependenciesOf_complete (g : Graph) (hwf : WFGraph g) {n d : String}
    (h : DependsOn g n d) : d ∈ dependenciesOf g n := by
  unfold dependenciesOf
  have hnd0 : ((depsOf g n).dedup).Nodup := List.nodup_dedup _
  have hsub0 : ∀ x ∈ (depsOf g n).dedup, x ∈ nodesOf g := by
    intro x hx
    exact depsOf_subset_nodes hwf (List.mem_dedup.mp hx)
  have hlen0 : (nodesOf g).dedup.length ≤ g.length + ((depsOf g n).dedup).length := by
    have h1 : (nodesOf g).dedup.length ≤ (nodesOf g).length :=
      List.Sublist.length_le (List.dedup_sublist _)
    have h2 : (nodesOf g).length = g.length := List.length_map _ _
    omega
  have hbase : ∀ x ∈ depsOf g n, x ∈ dependenciesOfAux g g.length (depsOf g n).dedup :=
    fun x hx => dependenciesOfAux_subset g _ _ x (List.mem_dedup.mpr hx)
  have hclosed := dependenciesOfAux_closed g hwf g.length (depsOf g n).dedup
    hnd0 hsub0 hlen0
  induction h with
  | single h1 => exact hbase _ h1
  | tail hprev hedge ih => exact hclosed _ ih _ hedge

theorem dependenciesOf_sound (g : Graph) {n : String} :
    ∀ x ∈ dependenciesOf g n, DependsOn g n x := by
  intro x hx
  unfold dependenciesOf at hx
  refine dependenciesOfAux_sound g n g.length _ ?_ x hx
  intro y hy
  exact Relation.TransGen.single (List.mem_dedup.mp hy)

theorem hasCycle_iff (g : Graph) (hwf : WFGraph g) :
    HasCycle g ↔ ∃ n, n ∈ nodesOf g ∧ n ∈ dependenciesOf g n := by
  constructor
  · rintro ⟨n, hc⟩
    exact ⟨n, dependsOn_source_mem hc, dependenciesOf_complete g hwf hc⟩
  · rintro ⟨n, _, hc⟩
    exact ⟨n, dependenciesOf_sound g n hc⟩

theorem cycle_of_stuck (g : Graph) (s : List String) (hne : s ≠ [])
    (h : ∀ x ∈ s, ∃ d ∈ s, d ∈ depsOf g x) : HasCycle g := by
  obtain ⟨n0, hn0⟩ := List.exists_mem_of_ne_nil s hne
  let nextFn : {x : String // x ∈ s} → {x : String // x ∈ s} :=
    fun y => ⟨(h y.1 y.2).choose, (h y.1 y.2).choose_spec.1⟩
  have hedge : ∀ y : {x : String // x ∈ s}, (nextFn y).1 ∈ depsOf g y.1 :=
    fun y => (h y.1 y.2).choose_spec.2
  let F : Nat → {x : String // x ∈ s} := fun k => nextFn^[k] ⟨n0, hn0⟩
  have hFsucc : ∀ k, F (k + 1) = nextFn (F k) := by
    intro k
    exact Function.iterate_succ_apply' nextFn k _
  have hchain : ∀ i j, i < j → DependsOn g (F i).1 (F j).1 := by
    intro i j hij
    induction j with
    | zero => cases hij
    | succ j2 ih =>
        have hstep : (F (j2 + 1)).1 ∈ depsOf g (F j2).1 := by
          rw [hFsucc]
          exact hedge (F j2)
        rcases Nat.lt_succ_iff_lt_or_eq.mp hij with hlt | heq
        · exact Relation.TransGen.tail (ih hlt) hstep
        · subst heq
          exact Relation.TransGen.single hstep
  have hmaps : ∀ k ∈ Finset.range (s.length + 1), (F k).1 ∈ s.toFinset := by
    intro k _
    exact List.mem_toFinset.mpr (F k).2
  have hcard : s.toFinset.card < (Finset.range (s.length + 1)).card := by
    rw [Finset.card_range]
    exact Nat.lt_succ_of_le (List.toFinset_card_le s)
  obtain ⟨i, _, j, _, hij, hfeq⟩ :=
    Finset.exists_ne_map_eq_of_card_lt_of_maps_to hcard hmaps
  rcases hij.lt_or_lt with hlt | hlt
  · refine ⟨(F i).1, ?_⟩
    have hc := hchain i j hlt
    rw [← hfeq] at hc
    exact hc
  · refine ⟨(F j).1, ?_⟩
    have hc := hchain j i hlt
    rw [hfeq] at hc
    exact hc

theorem topoSortedFrom_mono (g : Graph) :
    ∀ (l seen seen2 : List String), (∀ x ∈ seen, x ∈ seen2) →
      topoSortedFrom g seen l → topoSortedFrom g seen2 l := by
  intro l
  induction l with
  | nil => intro seen seen2 _ _; trivial
  | cons n rest ih =>
      intro seen seen2 hsub ht
      refine ⟨fun d hd => hsub d (ht.1 d hd), ?_⟩
      refine ih (seen ++ [n]) (seen2 ++ [n]) ?_ ht.2
      intro x hx
      rcases List.mem_append.mp hx with hx | hx
      · exact List.mem_append_left _ (hsub x hx)
      · exact List.mem_append_right _ hx

theorem topoSortedFrom_append (g : Graph) :
    ∀ (l1 l2 seen : List String), topoSortedFrom g seen l1 →
      topoSortedFrom g (seen ++ l1) l2 → topoSortedFrom g seen (l1 ++ l2) := by
  intro l1
  induction l1 with
  | nil =>
      intro l2 seen _ h2
      simpa using h2
  | cons n rest ih =>
      intro l2 seen h1 h2
      refine ⟨h1.1, ?_⟩
      refine ih l2 (seen ++ [n]) h1.2 ?_
      have : seen ++ n :: rest = (seen ++ [n]) ++ rest := by simp
      rw [this] at h2
      exact h2

theorem topoSortedFrom_of_deps_in_seen (g : Graph) :
    ∀ (l seen : List String), (∀ n ∈ l, ∀ d ∈ depsOf g n, d ∈ seen) →
      topoSortedFrom g seen l := by
  intro l
  induction l with
  | nil => intro seen _; trivial
  | cons n rest ih =>
      intro seen h
      refine ⟨h n (List.mem_cons_self n rest), ?_⟩
      refine topoSortedFrom_mono g rest seen (seen ++ [n]) ?_
        (ih seen (fun m hm => h m (List.mem_cons_of_mem n hm)))
      intro x hx
      exact List.mem_append_left _ hx

theorem kahnAux_some_spec (g : Graph) :
    ∀ (fuel : Nat) (emitted remaining out : List String),
      kahnAux g fuel emitted remaining = some out →
      emitted.Nodup → remaining.Nodup → (∀ x ∈ remaining, ¬ x ∈ emitted) →
      topoSortedFrom g [] emitted →
      (∀ x ∈ nodesOf g, x ∈ emitted ∨ x ∈ remaining) →
      out.Nodup ∧ topoSortedFrom g [] out ∧ ∀ x ∈ nodesOf g, x ∈ out := by
  intro fuel
  induction fuel with
  | zero =>
      intro emitted remaining out hk hnde hndr hdisj htopo hcov
      unfold kahnAux at hk
      split at hk
      · next hrem =>
          subst hrem
          cases hk
          refine ⟨hnde, htopo, ?_⟩
          intro x hx
          rcases hcov x hx with hx2 | hx2
          · exact hx2
          · cases hx2
      · cases hk
  | succ fuel2 ih =>
      intro emitted remaining out hk hnde hndr hdisj htopo hcov
      unfold kahnAux at hk
      split at hk
      · next hrem =>
          subst hrem
          cases hk
          refine ⟨hnde, htopo, ?_⟩
          intro x hx
          rcases hcov x hx with hx2 | hx2
          · exact hx2
          · cases hx2
      · next hrem =>
          split at hk
          · cases hk
          · next hready =>
              set ready := remaining.filter
                (fun n => decide (∀ d ∈ depsOf g n, d ∈ emitted)) with hreadydef
              have hreadysub : ∀ x ∈ ready, x ∈ remaining :=
                fun x hx => (List.mem_filter.mp hx).1
              have hreadydeps : ∀ x ∈ ready, ∀ d ∈ depsOf g x, d ∈ emitted := by
                intro x hx
                have := (List.mem_filter.mp hx).2
                simpa using this
              refine ih (emitted ++ ready)
                (remaining.filter (fun n => ¬ n ∈ ready)) out hk ?_ ?_ ?_ ?_ ?_
              · rw [List.nodup_append]
                refine ⟨hnde, List.Nodup.filter _ hndr, ?_⟩
                intro x hx hx2
                exact hdisj x (hreadysub x hx2) hx
              · exact List.Nodup.filter _ hndr
              · intro x hx
                have hx1 := (List.mem_filter.mp hx).1
                have hx2 := (List.mem_filter.mp hx).2
                simp only [decide_not, Bool.not_eq_true', decide_eq_false_iff_not] at hx2
                intro hmem
                rcases List.mem_append.mp hmem with hm | hm
                · exact hdisj x hx1 hm
                · exact hx2 hm
              · refine topoSortedFrom_append g emitted ready [] htopo ?_
                refine topoSortedFrom_of_deps_in_seen g ready ([] ++ emitted) ?_
                intro n hn d hd
                exact List.mem_append_right _ (hreadydeps n hn d hd)
              · intro x hx
                rcases hcov x hx with hx2 | hx2
                · exact Or.inl (List.mem_append_left _ hx2)
                · by_cases hr : x ∈ ready
                  · exact Or.inl (List.mem_append_right _ hr)
                  · refine Or.inr ?_
                    rw [List.mem_filter]
                    exact ⟨hx2, by simpa using hr⟩

theorem kahnAux_none_cycle (g : Graph) :
    ∀ (fuel : Nat) (emitted remaining : List String),
      remaining.length ≤ fuel →
      (∀ x ∈ remaining, ∀ d ∈ depsOf g x, d ∈ emitted ∨ d ∈ remaining) →
      kahnAux g fuel emitted remaining = none → HasCycle g := by
  intro fuel
  induction fuel with
  | zero =>
      intro emitted remaining hlen hinv hk
      have hrem : remaining = [] := List.eq_nil_of_length_eq_zero (Nat.le_zero.mp hlen)
      unfold kahnAux at hk
      rw [if_pos hrem] at hk
      cases hk
  | succ fuel2 ih =>
      intro emitted remaining hlen hinv hk
      unfold kahnAux at hk
      split at hk
      · cases hk
      · next hrem =>
          split at hk
          · next hready =>
              refine cycle_of_stuck g remaining hrem ?_
              intro x hx
              have hxpred : ¬ (∀ d ∈ depsOf g x, d ∈ emitted) := by
                intro hall
                have : x ∈ remaining.filter
                    (fun n => decide (∀ d ∈ depsOf g n, d ∈ emitted)) := by
                  rw [List.mem_filter]
                  exact ⟨hx, by simpa using hall⟩
                rw [hready] at this
                cases this
              push_neg at hxpred
              rcases hxpred with ⟨d, hd, hdne⟩
              rcases hinv x hx d hd with hde | hdr
              · exact absurd hde hdne
              · exact ⟨d, hdr, hd⟩
          · next hready =>
              set ready := remaining.filter
                (fun n => decide (∀ d ∈ depsOf g n, d ∈ emitted)) with hreadydef
              refine ih (emitted ++ ready)
                (remaining.filter (fun n => ¬ n ∈ ready)) ?_ ?_ hk
              · have hlt : (remaining.filter (fun n => ¬ n ∈ ready)).length <
                    remaining.length := by
                  rw [List.length_filter_lt_length_iff_exists]
                  obtain ⟨y, hy⟩ := List.exists_mem_of_ne_nil ready hready
                  exact ⟨y, (List.mem_filter.mp hy).1, by simpa using hy⟩
                omega
              · intro x hx d hd
                have hx1 := (List.mem_filter.mp hx).1
                rcases hinv x hx1 d hd with hde | hdr
                · exact Or.inl (List.mem_append_left _ hde)
                · by_cases hr : d ∈ ready
                  · exact Or.inl (List.mem_append_right _ hr)
                  · refine Or.inr ?_
                    rw [List.mem_filter]
                    exact ⟨hdr, by simpa using hr⟩

theorem topoOrder_some_spec (g : Graph) (hwf : WFGraph g) {out : List String}
    (h : topoOrder g = some out) :
    out.Nodup ∧ topoSortedFrom g [] out ∧ ∀ x ∈ nodesOf g, x ∈ out := by
  refine kahnAux_some_spec g g.length [] (nodesOf g) out h List.nodup_nil hwf.1
    (fun x _ hx => (List.not_mem_nil x) hx) trivial (fun x hx => Or.inr hx)

theorem hasCycle_of_topoOrder_none (g : Graph) (hwf : WFGraph g)
    (h : topoOrder g = none) : HasCycle g := by
  refine kahnAux_none_cycle g g.length [] (nodesOf g) ?_ ?_ h
  · unfold nodesOf
    rw [List.length_map]
  · intro x _ d hd
    exact Or.inr (depsOf_subset_nodes hwf hd)

theorem topo_no_self_dep (g : Graph) :
    ∀ (l seen : List String), topoSortedFrom g seen l → (seen ++ l).Nodup →
      (∀ a ∈ seen, ∀ b2, DependsOn g a b2 → b2 ∈ seen) →
      (∀ a ∈ seen, ¬ DependsOn g a a) →
      (∀ a ∈ seen ++ l, ¬ DependsOn g a a) := by
  intro l
  induction l with
  | nil =>
      intro seen _ _ _ hns a ha
      rw [List.append_nil] at ha
      exact hns a ha
  | cons x rest ih =>
      intro seen htopo hnd hinv hns
      have hxdeps : ∀ d ∈ depsOf g x, d ∈ seen := htopo.1
      have hxnot : ¬ x ∈ seen := by
        intro hx
        have hdisj := (List.nodup_append.mp hnd).2.2
        exact hdisj hx (List.mem_cons_self x rest)
      have hreach_x : ∀ b2, DependsOn g x b2 → b2 ∈ seen := by
        intro b2 hdep
        induction hdep with
        | single h1 => exact hxdeps _ h1
        | tail hprev hedge ih2 =>
            exact hinv _ ih2 _ (Relation.TransGen.single hedge)
      have hns_x : ¬ DependsOn g x x := fun hd => hxnot (hreach_x x hd)
      have hinv2 : ∀ a ∈ seen ++ [x], ∀ b2, DependsOn g a b2 → b2 ∈ seen ++ [x] := by
        intro a ha b2 hdep
        rcases List.mem_append.mp ha with ha | ha
        · exact List.mem_append_left _ (hinv a ha b2 hdep)
        · rcases List.mem_singleton.mp ha with rfl
          exact List.mem_append_left _ (hreach_x b2 hdep)
      have hns2 : ∀ a ∈ seen ++ [x], ¬ DependsOn g a a := by
        intro a ha
        rcases List.mem_append.mp ha with ha | ha
        · exact hns a ha
        · rcases List.mem_singleton.mp ha with rfl
          exact hns_x
      have hnd2 : ((seen ++ [x]) ++ rest).Nodup := by
        rw [List.append_assoc]
        exact hnd
      have hrec := ih (seen ++ [x]) htopo.2 hnd2 hinv2 hns2
      intro a ha
      refine hrec a ?_
      rw [List.append_assoc]
      exact ha

theorem no_cycle_of_topoSorted (g : Graph) (out : List String)
    (htopo : topoSortedFrom g [] out) (hnd : out.Nodup)
    (hcov : ∀ x ∈ nodesOf g, x ∈ out) : ¬ HasCycle g := by
  rintro ⟨n, hc⟩
  have hn : n ∈ out := hcov n (dependsOn_source_mem hc)
  have := topo_no_self_dep g out [] htopo (by simpa using hnd)
    (fun a ha => absurd ha (List.not_mem_nil a))
    (fun a ha => absurd ha (List.not_mem_nil a))
  exact this n (by simpa using hn) hc

theorem cascadeStep_other (g : Graph) (acc : List (String × Bump)) (n k : String)
    (hk : k ≠ n) : mapGet (cascadeStep g acc n) k = mapGet acc k := by
  unfold cascadeStep
  split
  · rfl
  · split
    · exact mapGet_mapSet_ne acc n k _ hk
    · exact mapGet_mapSet_ne acc n k _ hk

theorem cascadeStep_mono (g : Graph) (acc : List (String × Bump)) (n k : String) :
    prioOpt (mapGet acc k) ≤ prioOpt (mapGet (cascadeStep g acc n) k) := by
  by_cases hk : k = n
  · subst hk
    unfold cascadeStep
    split
    · exact le_refl _
    · split
      · next cur hcur =>
          rw [hcur, mapGet_mapSet_self]
          exact le_maxBumpType (List.mem_cons_self cur _)
      · next hcur =>
          rw [hcur, mapGet_mapSet_self]
          exact Nat.zero_le _
  · rw [cascadeStep_other g acc n k hk]

theorem foldl_cascade_mono (g : Graph) :
    ∀ (l : List String) (acc : List (String × Bump)) (k : String),
      prioOpt (mapGet acc k) ≤ prioOpt (mapGet (l.foldl (cascadeStep g) acc) k) := by
  intro l
  induction l with
  | nil => intro acc k; exact le_refl _
  | cons n rest ih =>
      intro acc k
      rw [List.foldl_cons]
      exact le_trans (cascadeStep_mono g acc n k) (ih (cascadeStep g acc n) k)

theorem cascadeStep_self_ge_dep (g : Graph) (acc : List (String × Bump))
    (n d : String) (b : Bump) (hd : d ∈ dependenciesOf g n)
    (hb : mapGet acc d = some b) :
    BUMP_PRIORITY b ≤ prioOpt (mapGet (cascadeStep g acc n) n) := by
  have hmem : b ∈ (dependenciesOf g n).filterMap (fun depId => mapGet acc depId) :=
    List.mem_filterMap.mpr ⟨d, hd, hb⟩
  have hne : (dependenciesOf g n).filterMap (fun depId => mapGet acc depId) ≠ [] :=
    List.ne_nil_of_mem hmem
  unfold cascadeStep
  rw [if_neg hne]
  split
  · next cur hcur =>
      rw [mapGet_mapSet_self]
      refine le_trans (le_maxBumpType hmem) ?_
      exact le_maxBumpType (List.mem_cons_of_mem cur (List.mem_cons_self _ []))
  · next hcur =>
      rw [mapGet_mapSet_self]
      exact le_maxBumpType hmem

theorem cascade_fold_inv (g : Graph) (hwf : WFGraph g) :
    ∀ (rest seen : List String) (R : List (String × Bump)),
      topoSortedFrom g seen rest → (seen ++ rest).Nodup → CascadeInv g seen R →
      CascadeInv g (seen ++ rest) (rest.foldl (cascadeStep g) R) := by
  intro rest
  induction rest with
  | nil =>
      intro seen R _ _ hinv
      rw [List.append_nil]
      exact hinv
  | cons x rest2 ih =>
      intro seen R htopo hnd hinv
      have hxdeps : ∀ d ∈ depsOf g x, d ∈ seen := htopo.1
      have hxnot : ¬ x ∈ seen := by
        intro hx
        have hdisj := (List.nodup_append.mp hnd).2.2
        exact hdisj hx (List.mem_cons_self x rest2)
      have hreach_x : ∀ b2, DependsOn g x b2 → b2 ∈ seen := by
        intro b2 hdep
        induction hdep with
        | single h1 => exact hxdeps _ h1
        | tail hprev hedge ih2 =>
            exact (hinv _ ih2 _ (Relation.TransGen.single hedge)).1
      have hinv2 : CascadeInv g (seen ++ [x]) (cascadeStep g R x) := by
        intro a ha b2 hdep
        rcases List.mem_append.mp ha with ha | ha
        · have hprev := hinv a ha b2 hdep
          have hb2ne : b2 ≠ x := fun hh => hxnot (hh ▸ hprev.1)
          have hane : a ≠ x := fun hh => hxnot (hh ▸ ha)
          refine ⟨List.mem_append_left _ hprev.1, ?_⟩
          intro v hv
          rw [cascadeStep_other g R x b2 hb2ne] at hv
          rw [cascadeStep_other g R x a hane]
          exact hprev.2 v hv
        · rcases List.mem_singleton.mp ha with rfl
          have hb2seen : b2 ∈ seen := hreach_x b2 hdep
          have hb2ne : b2 ≠ a := fun hh => hxnot (hh ▸ hb2seen)
          refine ⟨List.mem_append_left _ hb2seen, ?_⟩
          intro v hv
          rw [cascadeStep_other g R a b2 hb2ne] at hv
          exact cascadeStep_self_ge_dep g R a b2 v
            (dependenciesOf_complete g hwf hdep) hv
      have hnd2 : ((seen ++ [x]) ++ rest2).Nodup := by
        rw [List.append_assoc]
        exact hnd
      have hrec := ih (seen ++ [x]) (cascadeStep g R x) htopo.2 hnd2 hinv2
      rw [List.foldl_cons]
      intro a ha b2 hdep
      have ha2 : a ∈ (seen ++ [x]) ++ rest2 := by
        rw [List.append_assoc]
        exact ha
      have hres := hrec a ha2 b2 hdep
      refine ⟨?_, hres.2⟩
      rw [List.append_assoc] at hres
      exact hres.1

/-- C5: on a module dependency graph that contains a cycle, the
dependency cascade degrades to the identity: it returns the initial
module-bump map unchanged (the topological sort throws before the
cascade loop runs). -/
theorem propagateDependencyCascade_cycle_id (g : Graph) (m : List (String × Bump))
    (hwf : WFGraph g) (hcyc : HasCycle g) :
    propagateDependencyCascade g m = m := by
  unfold propagateDependencyCascade
  cases h : topoOrder g with
  | none => rfl
  | some out =>
      exfalso
      obtain ⟨hnd, htopo, hmem⟩ := topoOrder_some_spec g hwf h
      exact no_cycle_of_topoSorted g out htopo hnd hmem hcyc

theorem propagateDependencyCascade_cycle_id_witness :
    propagateDependencyCascade gC5 mC5 = mC5 :=
  propagateDependencyCascade_cycle_id gC5 mC5 (by unfold WFGraph; decide)
    ⟨"A", Relation.TransGen.tail
      (Relation.TransGen.single (show "B" ∈ depsOf gC5 "A" by decide))
      (show "A" ∈ depsOf gC5 "B" by decide)⟩

/-- C4: on an acyclic (well-formed) module dependency graph, after the
dependency cascade every module M that transitively depends on a module
N carrying a bump b in the result is itself assigned a bump of priority
at least that of b; and no key's bump priority ever decreases relative
to the initial map. -/
theorem propagateDependencyCascade_spec (g : Graph) (m : List (String × Bump))
    (hwf : WFGraph g) (hacyc : ¬ HasCycle g) :
    (∀ M N b, DependsOn g M N →
      mapGet (propagateDependencyCascade g m) N = some b →
      ∃ b2, mapGet (propagateDependencyCascade g m) M = some b2 ∧
        BUMP_PRIORITY b ≤ BUMP_PRIORITY b2) ∧
    (∀ k, prioOpt (mapGet m k) ≤
      prioOpt (mapGet (propagateDependencyCascade g m) k)) := by
  cases h : topoOrder g with
  | none => exact absurd (hasCycle_of_topoOrder_none g hwf h) hacyc
  | some out =>
      have hprop : propagateDependencyCascade g m = out.foldl (cascadeStep g) m := by
        unfold propagateDependencyCascade
        rw [h]
      obtain ⟨hnd, htopo, hmem⟩ := topoOrder_some_spec g hwf h
      constructor
      · intro M N b hdep hN
        have hMout : M ∈ out := hmem M (dependsOn_source_mem hdep)
        have hinv := cascade_fold_inv g hwf out [] m htopo (by simpa using hnd)
          (fun a ha => absurd ha (List.not_mem_nil a))
        have h2 := hinv M (by simpa using hMout) N hdep
        have hv := h2.2 b (by rw [← hprop]; exact hN)
        cases hM : mapGet (out.foldl (cascadeStep g) m) M with
        | none =>
            exfalso
            rw [hM] at hv
            have := BUMP_PRIORITY_pos b
            simp [prioOpt] at hv
            omega
        | some b2 =>
            refine ⟨b2, by rw [hprop]; exact hM, ?_⟩
            rw [hM] at hv
            exact hv
      · intro k
        rw [hprop]
        exact foldl_cascade_mono g out m k

theorem propagateDependencyCascade_spec_witness :
    (∃ b2, mapGet (propagateDependencyCascade gC4 mC4) "A" = some b2 ∧
      BUMP_PRIORITY Bump.minor ≤ BUMP_PRIORITY b2) ∧
    prioOpt (mapGet mC4 "B") ≤ prioOpt (mapGet (propagateDependencyCascade gC4 mC4) "B") :=
  ⟨(propagateDependencyCascade_spec gC4 mC4 (by unfold WFGraph; decide)
      (fun hc => absurd ((hasCycle_iff gC4 (by unfold WFGraph; decide)).mp hc)
        (by decide))).1
    "A" "B" Bump.minor
    (Relation.TransGen.single (show "B" ∈ depsOf gC4 "A" by decide)) (by decide),
   (propagateDependencyCascade_spec gC4 mC4 (by unfold WFGraph; decide)
      (fun hc => absurd ((hasCycle_iff gC4 (by unfold WFGraph; decide)).mp hc)
        (by decide))).2 "B"⟩

end Labki
